import Mathlib

/-! # Invoice watcher: checkpointed log scanning and event reconciliation

A shallow embedding of `backend/internal/models/invoice.go`,
`backend/internal/repository/invoice_repository.go`,
`backend/internal/watcher/watcher.go` and the amount conversion of
`CreateInvoice` in `backend/internal/service/invoice_service.go`.

* The two tables (`invoice`, `app_state`) are lists of rows. A gorm `First`
  is `ORDER BY <primary key> LIMIT 1`, so it returns the matching row with the
  least primary key.
* Every database write carries the outcome the database gave it (`ok`); a
  failed write returns an error and changes nothing. The read of the
  checkpoint row carries its outcome too (`Env.firstOk`); the reads of the
  handlers succeed, their only error is "record not found".
* The column `last_processed_block` is a `bigint`: a `uint64` from `2^63` on is
  refused when it is written (`dbAccepts`).
* `uint64` values are naturals, with the wrap-around of the Go arithmetic
  written out; `int64(x)` is the two's complement reading of the low 64 bits.
* Calls into go-ethereum that need the Keccak permutation or the contract's
  ABI file are taken as parameters (`Eth`, `ABI`).
* A positive finite `float64` or `big.Float` is a mantissa and a binary
  exponent; rounding to a precision is `ToNearestEven` on the mantissa.
-/

namespace InvoiceWatcher

/-! ## go-ethereum values -/

/-- The type `common.Hash`: 32 bytes, most significant first. -/
structure Hash where
  bytes : List Nat
deriving DecidableEq, Repr

/-- The type `common.Address`: 20 bytes. -/
structure Address where
  bytes : List Nat
deriving DecidableEq, Repr

/-- Library functions of go-ethereum that are taken as given. -/
structure Eth where
  /-- Legacy Keccak-256 of a byte string. -/
  keccak256 : List Nat → List Nat
  /-- The function `common.HexToAddress`. -/
  HexToAddress : String → Address

/-- One character of the alphabet `0123456789abcdef` used by `hex.Encode`. -/
def hexDigit (n : Nat) : Char :=
  if n % 16 < 10 then Char.ofNat (48 + n % 16) else Char.ofNat (87 + n % 16)

/-- The function `hex.Encode`: two lower-case digits per byte. -/
def hexEncode : List Nat → List Char
  | [] => []
  | b :: bs => hexDigit (b / 16) :: hexDigit b :: hexEncode bs

/-- The method `Hash.Hex`: `hexutil.Encode`, that is `0x` followed by the digits. -/
def Hash.Hex (h : Hash) : String :=
  String.mk ('0' :: 'x' :: hexEncode h.bytes)

/-- The loop of `Address.checksumHex` (EIP-55): the digit at position `j` is put
in upper case when it is a letter and the `j`-th nibble of the hash exceeds 7. -/
def checksumCase (hash : List Nat) : Nat → List Char → List Char
  | _, [] => []
  | j, c :: cs =>
    let hashByte := hash.getD (j / 2) 0
    let nibble := if j % 2 = 0 then hashByte / 16 else hashByte % 16
    (if '9'.toNat < c.toNat ∧ 7 < nibble then Char.ofNat (c.toNat - 32) else c)
      :: checksumCase hash (j + 1) cs

/-- The method `Address.Hex`: `0x` followed by the checksummed digits. -/
def Address.Hex (eth : Eth) (a : Address) : String :=
  let buf := hexEncode a.bytes
  String.mk ('0' :: 'x' :: checksumCase (eth.keccak256 (buf.map Char.toNat)) 0 buf)

/-- The function `common.BytesToAddress`: keeps the last 20 bytes, pads on the left. -/
def BytesToAddress (b : List Nat) : Address :=
  let b := if b.length > 20 then b.drop (b.length - 20) else b
  ⟨List.replicate (20 - b.length) 0 ++ b⟩

/-- The value of `new(big.Int).SetBytes(b)`: the big-endian unsigned reading. -/
def SetBytes (b : List Nat) : Nat :=
  b.foldl (fun acc x => acc * 256 + x) 0

/-- The function `strings.EqualFold` where one side is a hex rendering (digits,
`a`..`f`, `x`): equality after lower-casing both sides. -/
def EqualFold (s t : String) : Bool :=
  s.data.map Char.toLower == t.data.map Char.toLower

/-- The type `types.Log`, with the fields the watcher reads. -/
structure Log where
  Address : Address
  Topics : List Hash
  Data : List Nat
  TxHash : Hash
deriving DecidableEq, Repr

/-- The type `abi.Event`, with the fields the watcher reads. -/
structure ABIEvent where
  Name : String
  ID : Hash
deriving DecidableEq, Repr

/-- The parsed contract ABI (`internal/abi/invoice.json` is read at start-up). -/
structure ABI where
  Events : List ABIEvent
  /-- Whether `UnpackIntoInterface(&raw, name, data)` returns a nil error. -/
  UnpackIntoInterface : String → List Nat → Bool

/-- The map lookup `abi.Events[name]`; a missing key gives the zero event. -/
def ABI.event (abi : ABI) (name : String) : ABIEvent :=
  (abi.Events.find? (fun e => e.Name == name)).getD ⟨"", ⟨List.replicate 32 0⟩⟩

/-- The method `ABI.EventByID`. -/
def ABI.EventByID (abi : ABI) (topic : Hash) : Option ABIEvent :=
  abi.Events.find? (fun e => e.ID.bytes == topic.bytes)

/-- The type `ethereum.FilterQuery`, with the fields the watcher sets. -/
structure FilterQuery where
  FromBlock : Int
  ToBlock : Int
  Addresses : List Address
  Topics : List (List Hash)
deriving DecidableEq, Repr

/-! ## Machine integers -/

/-- The modulus of `uint64`. -/
def u64 : Nat := 2 ^ 64

/-- Subtraction of `uint64` values. -/
def subU64 (a b : Nat) : Nat := (a % u64 + (u64 - b % u64)) % u64

/-- Addition of `uint64` values. -/
def addU64 (a b : Nat) : Nat := (a + b) % u64

/-- The conversion `int64(x)` of a `uint64`. -/
def int64 (x : Nat) : Int :=
  if x % u64 < 2 ^ 63 then ((x % u64 : Nat) : Int) else ((x % u64 : Nat) : Int) - 2 ^ 64

/-! ## models -/

abbrev Time := Int

abbrev InvoiceStatus := String

@[reducible] def StatusPending : InvoiceStatus := "PENDING"
@[reducible] def StatusPaid : InvoiceStatus := "PAID"
@[reducible] def StatusExpired : InvoiceStatus := "EXPIRED"

/-- The struct `models.Invoice`. `ID` is the uuid primary key, read as a 128-bit
number (the order Postgres gives uuids). -/
structure Invoice where
  ID : Nat
  OnchainInvoiceID : String
  MerchantAddress : String
  AmountWei : String
  AmountETH : String
  Status : InvoiceStatus
  ExpiresAt : Time
  PaymentAddress : String
  ContractAddress : String
  TxHash : Option String
  PayerAddress : Option String
  CreatedAt : Time
  UpdatedAt : Time
deriving DecidableEq, Repr

/-- The struct `models.AppState`. -/
structure AppState where
  ID : Nat
  LastProcessedBlock : Nat
deriving DecidableEq, Repr

/-- The database: the `invoice` table and the `app_state` table. -/
structure DB where
  invoice : List Invoice
  appState : List AppState
deriving DecidableEq, Repr

/-! ## repository -/

/-- The gorm query `Where(p).First(..)`: among the rows satisfying `p`, the one
with the least primary key; `none` is the error return. -/
def first {α : Type} (key : α → Nat) (p : α → Bool) : List α → Option α
  | [] => none
  | r :: rs =>
    match first key p rs with
    | none => if p r then some r else none
    | some b => if p r && decide (key r ≤ key b) then some r else some b

def FindByID (id : Nat) (s : List Invoice) : Option Invoice :=
  first Invoice.ID (fun r => r.ID == id) s

def FindByOnchainID (onchainID : String) (s : List Invoice) : Option Invoice :=
  first Invoice.ID (fun r => r.OnchainInvoiceID == onchainID) s

def FindByTxHash (txHash : String) (s : List Invoice) : Option Invoice :=
  first Invoice.ID (fun r => r.TxHash == some txHash) s

/-- The method `UpdateStatus`; gorm also sets `updated_at`. `none` is the error return. -/
def UpdateStatus (ok : Bool) (now : Time) (id : Nat) (status : InvoiceStatus)
    (txHash payer : String) (s : List Invoice) : Option (List Invoice) :=
  if ok then
    some (s.map fun r =>
      if r.ID = id then
        { r with
          Status := status
          TxHash := if txHash != "" then some txHash else r.TxHash
          PayerAddress := if payer != "" then some payer else r.PayerAddress
          UpdatedAt := now }
      else r)
  else none

/-- The method `UpdateOnchainID`; gorm also sets `updated_at`. -/
def UpdateOnchainID (ok : Bool) (now : Time) (id : Nat) (onchainID : String)
    (s : List Invoice) : Option (List Invoice) :=
  if ok then
    some (s.map fun r =>
      if r.ID = id then { r with OnchainInvoiceID := onchainID, UpdatedAt := now } else r)
  else none

def FindPending (s : List Invoice) : List Invoice :=
  s.filter fun r => r.Status == StatusPending

/-- The method `UpdateExpired`: one bulk `UPDATE .. WHERE status = PENDING AND
expires_at < now`. `now` is the argument; `stamp` is the reading of its own clock
that gorm writes to `updated_at`. -/
def UpdateExpired (ok : Bool) (stamp : Time) (now : Time) (s : List Invoice) :
    Option (List Invoice) :=
  if ok then
    some (s.map fun r =>
      if r.Status = StatusPending ∧ r.ExpiresAt < now then
        { r with Status := StatusExpired, UpdatedAt := stamp }
      else r)
  else none

/-! ## watcher -/

/-- The struct `Watcher`, with the fields the scan loop and the handlers read. -/
structure Watcher where
  contractABI : ABI
  contractAddress : String

/-- The method `handleInvoiceCreated`. `ok` and `now` are the outcome and the
time of the store write, when one is attempted. -/
def handleInvoiceCreated (w : Watcher) (ok : Bool) (now : Time) (vLog : Log)
    (s : List Invoice) : List Invoice :=
  if !w.contractABI.UnpackIntoInterface "InvoiceCreated" vLog.Data then s
  else if vLog.Topics.length < 2 then s
  else
    let invoiceId := SetBytes (vLog.Topics.getD 1 ⟨[]⟩).bytes
    let txHash := vLog.TxHash.Hex
    match FindByTxHash txHash s with
    | none => s
    | some invoice =>
      if invoice.OnchainInvoiceID != "" then s
      else
        match UpdateOnchainID ok now invoice.ID (toString invoiceId) s with
        | none => s
        | some s1 => s1

/-- The method `handleInvoicePaid`. -/
def handleInvoicePaid (eth : Eth) (w : Watcher) (ok : Bool) (now : Time) (vLog : Log)
    (s : List Invoice) : List Invoice :=
  if !w.contractABI.UnpackIntoInterface "InvoicePaid" vLog.Data then s
  else if vLog.Topics.length < 3 then s
  else
    let invoiceId := SetBytes (vLog.Topics.getD 1 ⟨[]⟩).bytes
    let payer := BytesToAddress (vLog.Topics.getD 2 ⟨[]⟩).bytes
    match FindByOnchainID (toString invoiceId) s with
    | none => s
    | some invoice =>
      if invoice.Status = StatusPaid then s
      else
        match UpdateStatus ok now invoice.ID StatusPaid vLog.TxHash.Hex (payer.Hex eth) s with
        | none => s
        | some s1 => s1

/-- The method `parseContractEvents` over `receipt.Logs`; it always returns a nil
error, so only the store is returned. The `k`-th log of the receipt has write
outcome `ok k` and write time `now k`. -/
def parseContractEvents (eth : Eth) (w : Watcher) (ok : Nat → Bool) (now : Nat → Time) :
    Nat → List Log → List Invoice → List Invoice
  | _, [], s => s
  | k, lg :: rest, s =>
    if lg.Topics.length = 0 || !EqualFold (lg.Address.Hex eth) w.contractAddress then
      parseContractEvents eth w ok now (k + 1) rest s
    else
      match w.contractABI.EventByID (lg.Topics.getD 0 ⟨[]⟩) with
      | none => parseContractEvents eth w ok now (k + 1) rest s
      | some event =>
        if event.Name = "InvoiceCreated" then
          parseContractEvents eth w ok now (k + 1) rest (handleInvoiceCreated w (ok k) (now k) lg s)
        else if event.Name = "InvoicePaid" then
          parseContractEvents eth w ok now (k + 1) rest (handleInvoicePaid eth w (ok k) (now k) lg s)
        else
          parseContractEvents eth w ok now (k + 1) rest s

/-- What the outside world answers during one call of `pollLogs`. -/
structure Env where
  /-- The answer of `client.BlockNumber` in `pollLogs`; `none` is an error. -/
  BlockNumber : Option Nat
  /-- The answer of `client.BlockNumber` in `getLastProcessedBlock`. -/
  bootBlockNumber : Option Nat
  /-- The answer of `client.FilterLogs`; `none` is an error. -/
  FilterLogs : FilterQuery → Option (List Log)
  /-- Whether the query of `db.First(&appState)` runs without a database error;
  when it does, its only error is "record not found" on an empty table. -/
  firstOk : Bool
  /-- Whether the `Create` of the checkpoint row succeeds. -/
  createOk : Bool
  /-- Whether the store write made for the `k`-th log of the batch succeeds. -/
  writeOk : Nat → Bool
  /-- The time of the store write made for the `k`-th log of the batch. -/
  clock : Nat → Time
  /-- Whether the `Update` of the checkpoint row succeeds. -/
  checkpointOk : Bool

/-- Whether a `uint64` can be written to the `bigint` column
`last_processed_block`: values from `2^63` on are refused with an error. -/
def dbAccepts (v : Nat) : Bool := decide (v < 2 ^ 63)

/-- The key the sequence of `app_state.id` gives to a new row: 1 in the empty
table, the key after the largest one otherwise. -/
def nextKey (t : List AppState) : Nat := (t.map AppState.ID).foldl max 0 + 1

/-- The method `getLastProcessedBlock`: the value returned and the table after.
The branch `err != nil` is taken on any error of `db.First`: the table is empty,
or the query failed (`env.firstOk = false`). In it the error of `BlockNumber` is
dropped (the head then reads 0) and so is the error of `Create`. -/
def getLastProcessedBlock (env : Env) (t : List AppState) : Nat × List AppState :=
  match (if env.firstOk then first AppState.ID (fun _ => true) t else none) with
  | none =>
    let currentBlock := env.bootBlockNumber.getD 0
    let currentBlock := if currentBlock > 0 then subU64 currentBlock 1 else currentBlock
    (currentBlock,
      if env.createOk && dbAccepts currentBlock then t ++ [⟨nextKey t, currentBlock⟩] else t)
  | some appState => (appState.LastProcessedBlock, t)

/-- The method `updateLastProcessedBlock`; the error of the update is dropped. -/
def updateLastProcessedBlock (ok : Bool) (blockNum : Nat) (t : List AppState) : List AppState :=
  if ok && dbAccepts blockNum then
    t.map fun r => if r.ID = 1 then { r with LastProcessedBlock := blockNum } else r
  else t

/-- The loop of `pollLogs` over the fetched logs: each log is handed to
`parseContractEvents` in a receipt of its own. -/
def processLogs (eth : Eth) (w : Watcher) (env : Env) : Nat → List Log → List Invoice → List Invoice
  | _, [], s => s
  | k, vLog :: rest, s =>
    processLogs eth w env (k + 1) rest
      (parseContractEvents eth w (fun _ => env.writeOk k) (fun _ => env.clock k) 0 [vLog] s)

/-- The method `pollLogs`: the database after the tick, and the log request sent
to the node, if one was sent. -/
def pollLogs (eth : Eth) (w : Watcher) (env : Env) (db : DB) : DB × Option FilterQuery :=
  match env.BlockNumber with
  | none => (db, none)
  | some latestBlock =>
    let safeBlock := subU64 latestBlock 2
    let (lastProcessed, t) := getLastProcessedBlock env db.appState
    let db := { db with appState := t }
    if lastProcessed ≥ safeBlock then (db, none)
    else
      let startBlock := addU64 lastProcessed 1
      let safeBlock := if subU64 safeBlock startBlock > 1000 then addU64 startBlock 1000 else safeBlock
      let paidID := (w.contractABI.event "InvoicePaid").ID
      let createdID := (w.contractABI.event "InvoiceCreated").ID
      let contractAddr := eth.HexToAddress w.contractAddress
      let query : FilterQuery :=
        { FromBlock := int64 startBlock
          ToBlock := int64 safeBlock
          Addresses := [contractAddr]
          Topics := [[paidID, createdID]] }
      match env.FilterLogs query with
      | none => (db, some query)
      | some logs =>
        let s := processLogs eth w env 0 logs db.invoice
        ({ invoice := s, appState := updateLastProcessedBlock env.checkpointOk safeBlock db.appState },
          some query)

/-- The checkpoint: the value a successful read of `getLastProcessedBlock` returns,
when a row exists. -/
def checkpoint (db : DB) : Option Nat :=
  (first AppState.ID (fun _ => true) db.appState).map AppState.LastProcessedBlock

/-! ## Notions used in the statements -/

/-- A run of `pollLogs` ticks, one per element of `envs`. -/
def runTicks (eth : Eth) (w : Watcher) : List Env → DB → DB
  | [], db => db
  | env :: envs, db => runTicks eth w envs (pollLogs eth w env db).1

/-- The upper bound of the range that `pollLogs` requests from checkpoint `c`
under head `H` (the final value of its variable `safeBlock`). -/
def upperBound (c H : Nat) : Nat :=
  if subU64 (subU64 H 2) (addU64 c 1) > 1000 then addU64 (addU64 c 1) 1000 else subU64 H 2

/-- The requests sent during a run of ticks, in order. -/
def runRequests (eth : Eth) (w : Watcher) : List Env → DB → List FilterQuery
  | [], _ => []
  | env :: envs, db =>
    (pollLogs eth w env db).2.toList ++ runRequests eth w envs (pollLogs eth w env db).1

/-- A successful scanning tick: the head read and the read of the checkpoint
succeed, a request is sent and the node answers it, and the write of the
checkpoint succeeds (the database accepts the upper bound of the range). -/
def scanOk (eth : Eth) (w : Watcher) (env : Env) (db : DB) : Bool :=
  match env.BlockNumber, (pollLogs eth w env db).2 with
  | some H, some q =>
    env.firstOk && (env.FilterLogs q).isSome && env.checkpointOk
      && dbAccepts (upperBound (getLastProcessedBlock env db.appState).1 H)
  | _, _ => false

/-- Every tick of the run is a successful scanning tick. -/
def allScanOk (eth : Eth) (w : Watcher) : List Env → DB → Bool
  | [], _ => true
  | env :: envs, db => scanOk eth w env db && allScanOk eth w envs (pollLogs eth w env db).1

/-- The blocks of the inclusive range `[lo, hi]`, in increasing order. -/
def blockRange (lo hi : Int) : List Int :=
  (List.range (hi - lo + 1).toNat).map fun (k : Nat) => lo + (k : Int)

/-- The blocks a request asks for. -/
def FilterQuery.blocks (q : FilterQuery) : List Int := blockRange q.FromBlock q.ToBlock

/-- The blocks asked for by a list of requests, in order. -/
def requestedBlocks : List FilterQuery → List Int
  | [] => []
  | q :: qs => q.blocks ++ requestedBlocks qs

/-- The on-chain invoice id a handler reads from the second topic of a log. -/
def Log.invoiceId (vLog : Log) : Nat := SetBytes (vLog.Topics.getD 1 ⟨[]⟩).bytes

/-- The payer address the paid handler reads from the third topic of a log. -/
def Log.payer (vLog : Log) : InvoiceWatcher.Address := BytesToAddress (vLog.Topics.getD 2 ⟨[]⟩).bytes

/-- The row `r` after a payment is recorded on the invoice with primary key `id`. -/
def markPaid (id : Nat) (txHash payer : String) (now : Time) (r : Invoice) : Invoice :=
  if r.ID = id then
    { r with Status := StatusPaid, TxHash := some txHash, PayerAddress := some payer,
             UpdatedAt := now }
  else r

/-- The row `r` after the on-chain id is linked to the invoice with primary key `id`. -/
def linkOnchain (id : Nat) (onchainID : String) (now : Time) (r : Invoice) : Invoice :=
  if r.ID = id then { r with OnchainInvoiceID := onchainID, UpdatedAt := now } else r

/-- One firing of the ticker in `startExpiryChecker`: `UpdateExpired(time.Now())`,
whose error is only logged. `now` is the `time.Now()` that is passed, `stamp` the
time gorm writes to `updated_at`. -/
def expiryTick (ok : Bool) (stamp : Time) (now : Time) (s : List Invoice) : List Invoice :=
  match UpdateExpired ok stamp now s with
  | none => s
  | some s1 => s1

/-- One step of a writer of the invoice table other than invoice creation: an
expiry sweep, or a log handed to one of the two handlers; each with the outcome
and the time of its store write. -/
inductive StoreOp where
  | sweep (ok : Bool) (stamp : Time) (now : Time)
  | created (ok : Bool) (now : Time) (vLog : Log)
  | paid (ok : Bool) (now : Time) (vLog : Log)

def StoreOp.apply (eth : Eth) (w : Watcher) : StoreOp → List Invoice → List Invoice
  | .sweep ok stamp now, s => expiryTick ok stamp now s
  | .created ok now vLog, s => handleInvoiceCreated w ok now vLog s
  | .paid ok now vLog, s => handleInvoicePaid eth w ok now vLog s

/-- A finite sequence of steps, applied in order. -/
def runOps (eth : Eth) (w : Watcher) : List StoreOp → List Invoice → List Invoice
  | [], s => s
  | op :: ops, s => runOps eth w ops (op.apply eth w s)

/-- What a step keeps of a row: the primary key; the status, payer and
transaction hash of a PAID row; and a non-empty on-chain id. -/
def Keeps (a b : Invoice) : Prop :=
  b.ID = a.ID
    ∧ (a.Status = StatusPaid →
        b.Status = StatusPaid ∧ b.TxHash = a.TxHash ∧ b.PayerAddress = a.PayerAddress)
    ∧ (a.OnchainInvoiceID ≠ "" → b.OnchainInvoiceID = a.OnchainInvoiceID)

/-! ## Concrete values used in the examples -/

def topicPaid : Hash := ⟨List.replicate 31 0 ++ [1]⟩
def topicCreated : Hash := ⟨List.replicate 31 0 ++ [2]⟩

def exEth : Eth := ⟨fun _ => [], fun _ => ⟨List.replicate 20 0⟩⟩

def exABI : ABI :=
  ⟨[⟨"InvoicePaid", topicPaid⟩, ⟨"InvoiceCreated", topicCreated⟩], fun _ _ => true⟩

def exWatcher : Watcher := ⟨exABI, "0x0000000000000000000000000000000000000000"⟩

/-- A tick in which the node reports head `H`, returns `logs` for every request,
the checkpoint is read, and every store write of a handler has outcome `ok`. -/
def exEnv (H : Nat) (logs : List Log) (ok : Bool) : Env :=
  { BlockNumber := some H
    bootBlockNumber := some H
    FilterLogs := fun _ => some logs
    firstOk := true
    createOk := true
    writeOk := fun _ => ok
    clock := fun _ => 100
    checkpointOk := true }

/-- A pending invoice linked to on-chain id 42. -/
def exInvoice : Invoice :=
  { ID := 7, OnchainInvoiceID := "42", MerchantAddress := "0xM", AmountWei := "10000000000000000",
    AmountETH := "", Status := StatusPending, ExpiresAt := 500, PaymentAddress := "",
    ContractAddress := "", TxHash := some "0xsubmit", PayerAddress := none,
    CreatedAt := 10, UpdatedAt := 10 }

/-- An `InvoicePaid` log of the watched contract for on-chain id 42. -/
def exPaidLog : Log :=
  { Address := ⟨List.replicate 20 0⟩
    Topics := [topicPaid, ⟨List.replicate 31 0 ++ [42]⟩, ⟨List.replicate 31 0 ++ [170]⟩]
    Data := []
    TxHash := ⟨List.replicate 32 171⟩ }

/-- A pending invoice that is not linked yet; its `tx_hash` is the submission hash. -/
def exUnlinked : Invoice :=
  { ID := 9, OnchainInvoiceID := "", MerchantAddress := "0xM", AmountWei := "1500000000000000000",
    AmountETH := "", Status := StatusPending, ExpiresAt := 500, PaymentAddress := "",
    ContractAddress := "",
    TxHash := some "0xcdcdcdcdcdcdcdcdcdcdcdcdcdcdcdcdcdcdcdcdcdcdcdcdcdcdcdcdcdcdcdcd",
    PayerAddress := none, CreatedAt := 10, UpdatedAt := 10 }

/-- An `InvoiceCreated` log of the watched contract, emitted by the submission
transaction of `exUnlinked`, with indexed id 42. -/
def exCreatedLog : Log :=
  { Address := ⟨List.replicate 20 0⟩
    Topics := [topicCreated, ⟨List.replicate 31 0 ++ [42]⟩]
    Data := []
    TxHash := ⟨List.replicate 32 205⟩ }

/-- The invoice 42 after a payment by `0xAAA` was recorded. -/
def exPaid : Invoice :=
  { exInvoice with Status := StatusPaid, TxHash := some "0xpay", PayerAddress := some "0xAAA" }

/-- A later run of the writers: a second `InvoicePaid` log for the same on-chain
id from another transaction, an expiry sweep after every expiry time, and an
`InvoiceCreated` log. -/
def exOps : List StoreOp :=
  [.paid true 200 { exPaidLog with TxHash := ⟨List.replicate 32 17⟩ },
   .sweep true 1001 1000,
   .created true 300 exCreatedLog,
   .created true 400 { exCreatedLog with TxHash := ⟨[]⟩, Topics := [topicCreated, ⟨[7]⟩] }]

/-- A tick under head 6000 in which the query of `db.First` fails and so does the
`BlockNumber` call inside `getLastProcessedBlock`; everything else succeeds. -/
def exEnvReadFails : Env :=
  { exEnv 6000 [] true with
    firstOk := false
    bootBlockNumber := none }

/-! ## service: the amount conversion of `CreateInvoice` -/

/-- A positive finite `float64`: the value `mant * 2 ^ exp`, with `mant < 2 ^ 53`. -/
structure Float64 where
  mant : Nat
  exp : Int
deriving DecidableEq, Repr

/-- A positive finite `big.Float`: precision in bits, and the value `mant * 2 ^ exp`. -/
structure BigFloat where
  prec : Nat
  mant : Nat
  exp : Int
deriving DecidableEq, Repr

/-- The number of bits of `n`, by halving at most `fuel` times. -/
def bitLenAux : Nat → Nat → Nat
  | 0, _ => 0
  | fuel + 1, n => if n = 0 then 0 else 1 + bitLenAux fuel (n / 2)

/-- The number of bits of `n` (`big.nat.bitLen`). -/
def bitLen (n : Nat) : Nat := bitLenAux n n

/-- Rounding of `mant * 2 ^ exp` to `prec` bits in mode `ToNearestEven`
(`Float.round`): the bits below the kept ones are dropped, and the kept mantissa
goes up by one when they are more than half a unit, or exactly half with an odd
mantissa. -/
def roundToPrec (prec mant : Nat) (exp : Int) : Nat × Int :=
  let n := bitLen mant
  if n ≤ prec then (mant, exp)
  else
    let sh := n - prec
    let q := mant / 2 ^ sh
    let r := mant % 2 ^ sh
    let half := 2 ^ (sh - 1)
    let q := if half < r ∨ (r = half ∧ q % 2 = 1) then q + 1 else q
    (q, exp + (sh : Int))

/-- The function `big.NewFloat`: precision 53, the value of `x` (a `float64` has
at most 53 bits, nothing is rounded). -/
def NewFloat (x : Float64) : BigFloat := ⟨53, x.mant, x.exp⟩

/-- The method `z.Mul(x, y)`: the product rounded to the precision of `z` (to the
larger precision of the operands when that of `z` is 0). -/
def BigFloat.Mul (z x y : BigFloat) : BigFloat :=
  let prec := if z.prec = 0 then max x.prec y.prec else z.prec
  let r := roundToPrec prec (x.mant * y.mant) (x.exp + y.exp)
  ⟨prec, r.1, r.2⟩

/-- The method `x.Int(z)`: truncation towards zero. -/
def BigFloat.Int (x : BigFloat) : Nat :=
  if 0 ≤ x.exp then x.mant * 2 ^ x.exp.toNat else x.mant / 2 ^ (-x.exp).toNat

/-- The `float64` constant `1e18`, which is `5 ^ 18 * 2 ^ 18`. -/
def float1e18 : Float64 := ⟨3814697265625, 18⟩

/-- The value of the variable `amountWei` of `CreateInvoice`, which is passed to
`createInvoiceOnChain` and stored. -/
def amountWei (amountETH : Float64) : Nat :=
  let amountFloat := NewFloat amountETH
  let multiplier := NewFloat float1e18
  let amountFloat := amountFloat.Mul amountFloat multiplier
  amountFloat.Int

/-- The column `AmountWei` of the row `CreateInvoice` stores: `amountWei.String()`. -/
def storedAmountWei (amountETH : Float64) : String := toString (amountWei amountETH)

/-- In the words of the specification: the truncation toward zero of the exact,
unrounded product of the amount and `10 ^ 18`. -/
def exactWei (amountETH : Float64) : Nat :=
  if 0 ≤ amountETH.exp then amountETH.mant * 2 ^ amountETH.exp.toNat * 10 ^ 18
  else amountETH.mant * 10 ^ 18 / 2 ^ (-amountETH.exp).toNat

/-- The `float64` nearest to 1.1, `0x3FF199999999999A`. -/
def exAmount11 : Float64 := ⟨2476979795053773, -51⟩

/-- The `float64` nearest to 0.01, `0x3F847AE147AE147B`. -/
def exAmount001 : Float64 := ⟨5764607523034235, -59⟩

/-- The `float64` 1.5. -/
def exAmount15 : Float64 := ⟨3, -1⟩

/-! ## The paid handler as two store steps -/

/-- The first store step of `handleInvoicePaid`, the read `FindByOnchainID`, with
the checks before and after it: the invoice the handler goes on to write to, or
`none` when it returns without a write. -/
def paidRead (w : Watcher) (vLog : Log) (s : List Invoice) : Option Invoice :=
  if !w.contractABI.UnpackIntoInterface "InvoicePaid" vLog.Data then none
  else if vLog.Topics.length < 3 then none
  else
    let invoiceId := SetBytes (vLog.Topics.getD 1 ⟨[]⟩).bytes
    match FindByOnchainID (toString invoiceId) s with
    | none => none
    | some invoice => if invoice.Status = StatusPaid then none else some invoice

/-- The second store step of `handleInvoicePaid`: the write `UpdateStatus` by the
primary key of the invoice that was read, on the table as it is then. -/
def paidWrite (eth : Eth) (ok : Bool) (now : Time) (vLog : Log) (invoice : Invoice)
    (s : List Invoice) : List Invoice :=
  let payer := BytesToAddress (vLog.Topics.getD 2 ⟨[]⟩).bytes
  match UpdateStatus ok now invoice.ID StatusPaid vLog.TxHash.Hex (payer.Hex eth) s with
  | none => s
  | some s1 => s1

/-- Where one atomic expiry sweep falls relative to the two store steps of the
paid handler. -/
inductive Interleaving where
  | sweepFirst
  | sweepBetween
  | sweepLast
deriving DecidableEq, Repr

/-- The table after the paid handler (write outcome `okW`, write time `nowW`) and
one expiry sweep (outcome `okS`, time `nowS`) ran interleaved as `i` says. -/
def runInterleaving (eth : Eth) (w : Watcher) (okS : Bool) (stampS nowS : Time) (okW : Bool)
    (nowW : Time) (vLog : Log) : Interleaving → List Invoice → List Invoice
  | .sweepFirst, s =>
    let s1 := expiryTick okS stampS nowS s
    match paidRead w vLog s1 with
    | none => s1
    | some invoice => paidWrite eth okW nowW vLog invoice s1
  | .sweepBetween, s =>
    match paidRead w vLog s with
    | none => expiryTick okS stampS nowS s
    | some invoice => paidWrite eth okW nowW vLog invoice (expiryTick okS stampS nowS s)
  | .sweepLast, s =>
    match paidRead w vLog s with
    | none => expiryTick okS stampS nowS s
    | some invoice => expiryTick okS stampS nowS (paidWrite eth okW nowW vLog invoice s)

/-- The row `r` after an expiry sweep with outcome `ok` at time `now`. -/
def sweepRow (ok : Bool) (stamp now : Time) (r : Invoice) : Invoice :=
  if ok = true ∧ r.Status = StatusPending ∧ r.ExpiresAt < now then
    { r with Status := StatusExpired, UpdatedAt := stamp }
  else r

/-! # Theorems -/

/-! ## Lemmas on `first` -/

theorem first_mem {α : Type} (key : α → Nat) (p : α → Bool) :
    ∀ (l : List α) (r : α), first key p l = some r → r ∈ l ∧ p r = true := by
  intro l
  induction l with
  | nil => intro r h; simp [first] at h
  | cons a l ih =>
    intro r h
    simp only [first] at h
    cases hf : first key p l with
    | none =>
      rw [hf] at h
      by_cases hp : p a = true
      · simp [hp] at h; subst h; exact ⟨List.mem_cons_self _ _, hp⟩
      · simp [hp] at h
    | some b =>
      rw [hf] at h
      by_cases hc : (p a && decide (key a ≤ key b)) = true
      · simp only [hc, if_true] at h
        cases h
        simp only [Bool.and_eq_true] at hc
        exact ⟨List.mem_cons_self _ _, hc.1⟩
      · simp only [hc] at h
        cases h
        have := ih r hf
        exact ⟨List.mem_cons_of_mem _ this.1, this.2⟩

theorem first_eq_none {α : Type} (key : α → Nat) (p : α → Bool) :
    ∀ (l : List α), first key p l = none ↔ ∀ r ∈ l, p r = false := by
  intro l
  induction l with
  | nil => simp [first]
  | cons a l ih =>
    cases hf : first key p l with
    | none =>
      have h1 := ih.mp hf
      by_cases hp : p a = true
      · simp [first, hf, hp]
      · simp only [Bool.not_eq_true] at hp
        simp [first, hf, hp]
        exact h1
    | some b =>
      have hb := first_mem key p l b hf
      constructor
      · intro h
        simp only [first, hf] at h
        by_cases hc : (p a && decide (key a ≤ key b)) = true
        · simp [hc] at h
        · simp [hc] at h
      · intro h
        have := h b (List.mem_cons_of_mem _ hb.1)
        rw [hb.2] at this
        cases this

theorem first_map {α : Type} (key : α → Nat) (p : α → Bool) (f : α → α)
    (hk : ∀ r, key (f r) = key r) (hp : ∀ r, p (f r) = p r) :
    ∀ (l : List α), first key p (l.map f) = (first key p l).map f := by
  intro l
  induction l with
  | nil => simp [first]
  | cons a l ih =>
    simp only [List.map_cons, first, ih]
    cases hf : first key p l with
    | none =>
      simp only [Option.map_none', hp]
      by_cases h : p a = true <;> simp [h]
    | some b =>
      simp only [Option.map_some', hp, hk]
      by_cases h : (p a && decide (key a ≤ key b)) = true
      · simp only [h, if_true, Option.map_some']
      · simp only [h, Option.map_some']
        rfl

/-! ## The checkpoint -/

theorem checkpoint_update (ok : Bool) (b : Nat) (t : List AppState) (r : AppState)
    (h : first AppState.ID (fun _ => true) t = some r) :
    first AppState.ID (fun _ => true) (updateLastProcessedBlock ok b t)
      = some (if (ok && dbAccepts b) = true ∧ r.ID = 1
          then { r with LastProcessedBlock := b } else r) := by
  unfold updateLastProcessedBlock
  by_cases hw : (ok && dbAccepts b) = true
  · simp only [hw, if_true, true_and]
    rw [first_map AppState.ID (fun _ => true) _ (by intro x; by_cases hx : x.ID = 1 <;> simp [hx])
      (by intro x; rfl), h]
    simp only [Option.map_some']
  · simp only [hw, if_false, false_and]
    exact h

/-- With the read succeeding and a row in the table, `getLastProcessedBlock` returns
the value of the row with the least key and writes nothing. -/
theorem getLastProcessedBlock_read (env : Env) (t : List AppState) (r : AppState)
    (hfirst : env.firstOk = true)
    (hr : first AppState.ID (fun _ => true) t = some r) :
    getLastProcessedBlock env t = (r.LastProcessedBlock, t) := by
  simp only [getLastProcessedBlock, hfirst, if_true, hr]

theorem subU64_lt (a b : Nat) : subU64 a b < u64 := by
  unfold subU64
  exact Nat.mod_lt _ (by decide)

/-- The range arithmetic of `pollLogs` on a checkpoint below the safe head: the
start is `c + 1`, the upper bound lies above the checkpoint, at most 1001 above
it, at most at the safe head, and nothing wraps. -/
theorem scan_bound (c H : Nat) (h : ¬ c ≥ subU64 H 2) :
    addU64 c 1 = c + 1 ∧ c < upperBound c H ∧ upperBound c H ≤ c + 1001
      ∧ upperBound c H ≤ subU64 H 2 ∧ upperBound c H < u64 := by
  have hs := subU64_lt H 2
  unfold upperBound
  generalize subU64 H 2 = safe at *
  simp only [subU64, addU64, u64, Nat.reducePow] at *
  split <;> omega

/-- What a tick does when the checkpoint row is read and a request is sent. -/
theorem pollLogs_request (eth : Eth) (w : Watcher) (env : Env) (db : DB) (r : AppState)
    (q : FilterQuery) (hfirst : env.firstOk = true)
    (hr : first AppState.ID (fun _ => true) db.appState = some r)
    (hq : (pollLogs eth w env db).2 = some q) :
    ∃ H, env.BlockNumber = some H ∧ ¬ r.LastProcessedBlock ≥ subU64 H 2
      ∧ q.FromBlock = int64 (addU64 r.LastProcessedBlock 1)
      ∧ q.ToBlock = int64 (upperBound r.LastProcessedBlock H)
      ∧ (pollLogs eth w env db).1
          = match env.FilterLogs q with
            | none => db
            | some logs =>
              { invoice := processLogs eth w env 0 logs db.invoice
                appState := updateLastProcessedBlock env.checkpointOk
                  (upperBound r.LastProcessedBlock H) db.appState } := by
  unfold pollLogs at hq ⊢
  cases hH : env.BlockNumber with
  | none => simp [hH] at hq
  | some H =>
    refine ⟨H, rfl, ?_⟩
    simp only [hH, getLastProcessedBlock_read env _ r hfirst hr] at hq ⊢
    by_cases hlt : r.LastProcessedBlock ≥ subU64 H 2
    · simp [hlt] at hq
    · simp only [hlt, if_false] at hq ⊢
      refine ⟨not_false, ?_⟩
      cases hF : env.FilterLogs
          { FromBlock := int64 (addU64 r.LastProcessedBlock 1)
            ToBlock := int64 (if subU64 (subU64 H 2) (addU64 r.LastProcessedBlock 1) > 1000
              then addU64 (addU64 r.LastProcessedBlock 1) 1000 else subU64 H 2)
            Addresses := [eth.HexToAddress w.contractAddress]
            Topics := [[(w.contractABI.event "InvoicePaid").ID,
              (w.contractABI.event "InvoiceCreated").ID]] } with
      | none =>
        simp only [hF] at hq ⊢
        cases hq
        simp [upperBound, hF]
      | some logs =>
        simp only [hF] at hq ⊢
        cases hq
        simp only [upperBound, hF, true_and]

/-- The checkpoint row after a tick that read it and sent a request. -/
theorem pollLogs_request_row (eth : Eth) (w : Watcher) (env : Env) (db : DB) (r : AppState)
    (q : FilterQuery) (hfirst : env.firstOk = true)
    (hr : first AppState.ID (fun _ => true) db.appState = some r)
    (hq : (pollLogs eth w env db).2 = some q) :
    ∃ H, env.BlockNumber = some H ∧ ¬ r.LastProcessedBlock ≥ subU64 H 2
      ∧ q.FromBlock = int64 (addU64 r.LastProcessedBlock 1)
      ∧ q.ToBlock = int64 (upperBound r.LastProcessedBlock H)
      ∧ first AppState.ID (fun _ => true) (pollLogs eth w env db).1.appState
          = some (if (env.FilterLogs q).isSome = true
                ∧ (env.checkpointOk && dbAccepts (upperBound r.LastProcessedBlock H)) = true
                ∧ r.ID = 1
              then { r with LastProcessedBlock := upperBound r.LastProcessedBlock H } else r) := by
  obtain ⟨H, hH, hlt, hfrom, hto, hafter⟩ := pollLogs_request eth w env db r q hfirst hr hq
  refine ⟨H, hH, hlt, hfrom, hto, ?_⟩
  rw [hafter]
  cases hF : env.FilterLogs q with
  | none => simp [hr]
  | some logs =>
    simp only [Option.isSome_some, true_and]
    exact checkpoint_update _ _ _ r hr

/-- A tick that reads the checkpoint row and sends no request changes nothing. -/
theorem pollLogs_no_request (eth : Eth) (w : Watcher) (env : Env) (db : DB) (r : AppState)
    (hfirst : env.firstOk = true)
    (hr : first AppState.ID (fun _ => true) db.appState = some r)
    (hq : (pollLogs eth w env db).2 = none) :
    (pollLogs eth w env db).1 = db := by
  unfold pollLogs at hq ⊢
  cases hH : env.BlockNumber with
  | none => simp
  | some H =>
    simp only [hH, getLastProcessedBlock_read env _ r hfirst hr] at hq ⊢
    by_cases hlt : r.LastProcessedBlock ≥ subU64 H 2
    · simp [hlt]
    · simp only [hlt, if_false] at hq
      split at hq <;> simp at hq

theorem blockRange_append (a b c : Int) (hab : a ≤ b) (hbc : b ≤ c) :
    blockRange (a + 1) b ++ blockRange (b + 1) c = blockRange (a + 1) c := by
  unfold blockRange
  have e1 : (c - (a + 1) + 1).toNat = (b - (a + 1) + 1).toNat + (c - (b + 1) + 1).toNat := by omega
  rw [e1, List.range_add, List.map_append, List.map_map]
  congr 1
  apply List.map_congr_left
  intro k _
  simp only [Function.comp]
  push_cast
  omega

theorem int64_of_nonneg (x : Nat) (hx : x < u64) (h : 0 ≤ int64 x) :
    int64 x = (x : Int) ∧ x < 2 ^ 63 := by
  unfold int64 at *
  simp only [u64, Nat.reducePow] at *
  rw [Nat.mod_eq_of_lt hx] at *
  split at h
  · simp [*]
  · omega

theorem int64_of_lt (x : Nat) (hx : x < 2 ^ 63) : int64 x = (x : Int) := by
  unfold int64
  simp only [u64, Nat.reducePow] at *
  rw [Nat.mod_eq_of_lt (by omega)]
  simp [hx]

/-- One successful scanning tick from the checkpoint row `⟨1, c⟩`. -/
theorem scan_tick (eth : Eth) (w : Watcher) (env : Env) (db : DB) (c : Nat)
    (hr : first AppState.ID (fun _ => true) db.appState = some ⟨1, c⟩)
    (hs : scanOk eth w env db = true) :
    ∃ (q : FilterQuery) (logs : List Log) (c1 : Nat),
      (pollLogs eth w env db).2 = some q ∧ env.FilterLogs q = some logs
      ∧ q.FromBlock = (c : Int) + 1 ∧ q.ToBlock = (c1 : Int) ∧ c < c1
      ∧ first AppState.ID (fun _ => true) (pollLogs eth w env db).1.appState = some ⟨1, c1⟩
      ∧ (pollLogs eth w env db).1.invoice = processLogs eth w env 0 logs db.invoice := by
  unfold scanOk at hs
  cases hH0 : env.BlockNumber with
  | none => simp [hH0] at hs
  | some H0 =>
    cases hq : (pollLogs eth w env db).2 with
    | none => simp [hH0, hq] at hs
    | some q =>
      simp only [hH0, hq, Bool.and_eq_true] at hs
      obtain ⟨⟨⟨hfirst, hF⟩, hck⟩, hacc⟩ := hs
      rw [getLastProcessedBlock_read env _ _ hfirst hr] at hacc
      simp only at hacc
      obtain ⟨H, hH, hlt, hfrom, hto, hafter⟩ := pollLogs_request eth w env db _ q hfirst hr hq
      rw [hH0] at hH
      cases hH
      simp only at hlt hfrom hto hafter
      obtain ⟨hstart, hlo, _, _, hu⟩ := scan_bound c H0 hlt
      have hsmall : upperBound c H0 < 2 ^ 63 := by simpa [dbAccepts] using hacc
      obtain ⟨logs, hlogs⟩ := Option.isSome_iff_exists.mp hF
      refine ⟨q, logs, upperBound c H0, rfl, hlogs, ?_, ?_, hlo, ?_, ?_⟩
      · rw [hfrom, hstart, int64_of_lt _ (by omega)]
        push_cast
        rfl
      · rw [hto, int64_of_lt _ hsmall]
      · rw [hafter, hlogs]
        simp only
        rw [checkpoint_update _ _ _ _ hr]
        simp [hck, hacc]
      · rw [hafter, hlogs]

/-! ## Claims on the scan loop -/

/-- C5 (fails on the code): with checkpoint 0 and head 5000 the request of one
tick is the inclusive range `[1, 1001]`, which is 1001 blocks: `ToBlock` exceeds
`lastProcessedBlock + 1000`. -/
theorem C5_request_spans_1001_blocks :
    ∃ q, (pollLogs exEth exWatcher (exEnv 5000 [] true) ⟨[], [⟨1, 0⟩]⟩).2 = some q
      ∧ q.FromBlock = 0 + 1 ∧ q.ToBlock = 1001 ∧ ¬ q.ToBlock ≤ 0 + 1000 := by
  refine ⟨_, rfl, ?_, ?_, ?_⟩ <;> decide

/-- C6 (fails on the code): with head 1 and checkpoint 0 the subtraction
`latestBlock - 2` wraps, a request for `[1, 1001]` is sent although the head is
below 2, and the checkpoint moves to 1001, beyond the head. -/
theorem C6_request_beyond_head :
    ∃ q, (pollLogs exEth exWatcher (exEnv 1 [] true) ⟨[], [⟨1, 0⟩]⟩).2 = some q
      ∧ q.ToBlock = 1001 ∧ ¬ q.ToBlock ≤ 1 - 2
      ∧ checkpoint (pollLogs exEth exWatcher (exEnv 1 [] true) ⟨[], [⟨1, 0⟩]⟩).1 = some 1001 := by
  refine ⟨_, rfl, ?_, ?_, ?_⟩ <;> decide

/-- A tick that reads the checkpoint never lowers it. -/
theorem pollLogs_checkpoint_le (eth : Eth) (w : Watcher) (env : Env) (db : DB) (c : Nat)
    (hfirst : env.firstOk = true) (h : checkpoint db = some c) :
    ∃ c1, checkpoint (pollLogs eth w env db).1 = some c1 ∧ c ≤ c1 := by
  unfold checkpoint at h
  cases hr : first AppState.ID (fun _ => true) db.appState with
  | none => simp [hr] at h
  | some r =>
    simp only [hr, Option.map_some', Option.some.injEq] at h
    cases hq : (pollLogs eth w env db).2 with
    | none =>
      rw [pollLogs_no_request eth w env db r hfirst hr hq]
      exact ⟨c, by simp [checkpoint, hr, h], le_refl _⟩
    | some q =>
      obtain ⟨H, _, hlt, _, _, hafter⟩ := pollLogs_request_row eth w env db r q hfirst hr hq
      have hb := (scan_bound _ H hlt).2.1
      unfold checkpoint
      rw [hafter]
      split
      · exact ⟨upperBound r.LastProcessedBlock H, rfl, by omega⟩
      · exact ⟨c, by simp [h], le_refl _⟩

/-- Over a run of ticks that all read the checkpoint, it never decreases. -/
theorem runTicks_checkpoint_le (eth : Eth) (w : Watcher) (envs : List Env) (db : DB) (c : Nat)
    (hall : ∀ e ∈ envs, e.firstOk = true) (h : checkpoint db = some c) :
    ∃ c1, checkpoint (runTicks eth w envs db) = some c1 ∧ c ≤ c1 := by
  induction envs generalizing db c with
  | nil => exact ⟨c, h, le_refl _⟩
  | cons env envs ih =>
    obtain ⟨c1, h1, hle⟩ :=
      pollLogs_checkpoint_le eth w env db c (hall env (List.mem_cons_self _ _)) h
    obtain ⟨c2, h2, hle2⟩ := ih _ c1 (fun e he => hall e (List.mem_cons_of_mem _ he)) h1
    exact ⟨c2, h2, le_trans hle hle2⟩

/-- C7 (fails on the code): with the checkpoint row `⟨1, 5000⟩` and head 6000, a
tick in which the query of `db.First` fails takes the bootstrap branch of
`getLastProcessedBlock`; the `BlockNumber` call in it fails too and its error is
dropped, so 0 is returned (and stored in a second row). The tick requests
`[1, 1001]` and `updateLastProcessedBlock` sets row 1 to 1001: the checkpoint went
from 5000 down to 1001. -/
theorem C7_checkpoint_decreases_after_failed_read :
    checkpoint ⟨[], [⟨1, 5000⟩]⟩ = some 5000
      ∧ getLastProcessedBlock exEnvReadFails [⟨1, 5000⟩] = (0, [⟨1, 5000⟩, ⟨2, 0⟩])
      ∧ (pollLogs exEth exWatcher exEnvReadFails ⟨[], [⟨1, 5000⟩]⟩).2.map
          (fun q => (q.FromBlock, q.ToBlock)) = some (1, 1001)
      ∧ (pollLogs exEth exWatcher exEnvReadFails ⟨[], [⟨1, 5000⟩]⟩).1.appState
          = [⟨1, 1001⟩, ⟨2, 0⟩]
      ∧ checkpoint (pollLogs exEth exWatcher exEnvReadFails ⟨[], [⟨1, 5000⟩]⟩).1 = some 1001
      ∧ ¬ (5000 ≤ 1001) := by
  refine ⟨?_, ?_, ?_, ?_, ?_, ?_⟩ <;> decide

theorem blockRange_count (lo hi b : Int) :
    (blockRange lo hi).count b = if lo ≤ b ∧ b ≤ hi then 1 else 0 := by
  have hnd : (blockRange lo hi).Nodup := by
    unfold blockRange
    apply List.Nodup.map _ (List.nodup_range _)
    intro x y hxy
    simp only at hxy
    omega
  have hmem : b ∈ blockRange lo hi ↔ lo ≤ b ∧ b ≤ hi := by
    unfold blockRange
    simp only [List.mem_map, List.mem_range]
    constructor
    · rintro ⟨k, hk, rfl⟩
      omega
    · intro h
      exact ⟨(b - lo).toNat, by omega, by omega⟩
  by_cases h : lo ≤ b ∧ b ≤ hi
  · rw [if_pos h]
    exact List.count_eq_one_of_mem hnd (hmem.mpr h)
  · rw [if_neg h]
    exact List.count_eq_zero_of_not_mem (fun hm => h (hmem.mp hm))

/-- A run of successful scanning ticks from the checkpoint row `⟨1, c⟩` asks for
the blocks `c + 1, .., c1` in order, where `c1` is the checkpoint after the run. -/
theorem scan_run (eth : Eth) (w : Watcher) (envs : List Env) (db : DB) (c : Nat)
    (hr : first AppState.ID (fun _ => true) db.appState = some ⟨1, c⟩)
    (hall : allScanOk eth w envs db = true) :
    ∃ c1 : Nat, first AppState.ID (fun _ => true) (runTicks eth w envs db).appState = some ⟨1, c1⟩
      ∧ c ≤ c1
      ∧ requestedBlocks (runRequests eth w envs db) = blockRange ((c : Int) + 1) c1 := by
  induction envs generalizing db c with
  | nil =>
    refine ⟨c, hr, le_refl _, ?_⟩
    simp [runRequests, requestedBlocks, blockRange]
  | cons env envs ih =>
    simp only [allScanOk, Bool.and_eq_true] at hall
    obtain ⟨q, _, c1, hq, _, hfrom, hto, hlt, hafter, _⟩ := scan_tick eth w env db c hr hall.1
    obtain ⟨c2, h2, hle, hblocks⟩ := ih _ c1 hafter hall.2
    refine ⟨c2, h2, by omega, ?_⟩
    simp only [runRequests, hq, Option.toList, List.cons_append, List.nil_append, requestedBlocks,
      hblocks, FilterQuery.blocks, hfrom, hto]
    exact blockRange_append c c1 c2 (by omega) (by omega)

/-- C8: from the checkpoint record `⟨1, c⟩`, a successful scanning tick (head,
checkpoint and logs are read, the checkpoint write succeeds) sends a request that
starts at block `c + 1`, and the checkpoint after the tick equals the request's
`ToBlock`; over any run of successful ticks the requested blocks, in order, are
exactly `c + 1, .., c1` for the final checkpoint `c1`, so the ranges are
contiguous and disjoint and every block of `(c, c1]` is requested exactly once. -/
theorem C8_scans_are_contiguous (eth : Eth) (w : Watcher) (db : DB) (c : Nat)
    (hr : first AppState.ID (fun _ => true) db.appState = some ⟨1, c⟩) :
    (∀ env, scanOk eth w env db = true →
      ∃ (q : FilterQuery) (c1 : Nat), (pollLogs eth w env db).2 = some q
        ∧ q.FromBlock = (c : Int) + 1 ∧ checkpoint (pollLogs eth w env db).1 = some c1
        ∧ q.ToBlock = (c1 : Int) ∧ c < c1)
    ∧ ∀ envs, allScanOk eth w envs db = true →
      ∃ c1 : Nat, checkpoint (runTicks eth w envs db) = some c1 ∧ c ≤ c1
        ∧ requestedBlocks (runRequests eth w envs db) = blockRange ((c : Int) + 1) c1
        ∧ ∀ b : Int, (requestedBlocks (runRequests eth w envs db)).count b
            = if (c : Int) < b ∧ b ≤ c1 then 1 else 0 := by
  constructor
  · intro env hs
    obtain ⟨q, _, c1, hq, _, hfrom, hto, hlt, hafter, _⟩ := scan_tick eth w env db c hr hs
    exact ⟨q, c1, hq, hfrom, by simp [checkpoint, hafter], hto, hlt⟩
  · intro envs hall
    obtain ⟨c1, h1, hle, hblocks⟩ := scan_run eth w envs db c hr hall
    refine ⟨c1, by simp [checkpoint, h1], hle, hblocks, fun b => ?_⟩
    rw [hblocks, blockRange_count]
    have e : ((c : Int) + 1 ≤ b ∧ b ≤ c1) ↔ ((c : Int) < b ∧ b ≤ c1) := by omega
    simp only [e]

theorem C8_scans_are_contiguous_witness :
    first AppState.ID (fun _ => true) (⟨[], [⟨1, 5⟩]⟩ : DB).appState = some ⟨1, 5⟩
    ∧ scanOk exEth exWatcher (exEnv 5000 [] true) ⟨[], [⟨1, 5⟩]⟩ = true
    ∧ allScanOk exEth exWatcher [exEnv 5000 [] true, exEnv 5000 [] true] ⟨[], [⟨1, 5⟩]⟩ = true
    ∧ (∃ (q : FilterQuery) (c1 : Nat),
        (pollLogs exEth exWatcher (exEnv 5000 [] true) ⟨[], [⟨1, 5⟩]⟩).2 = some q
        ∧ q.FromBlock = ((5 : Nat) : Int) + 1
        ∧ checkpoint (pollLogs exEth exWatcher (exEnv 5000 [] true) ⟨[], [⟨1, 5⟩]⟩).1 = some c1
        ∧ q.ToBlock = (c1 : Int) ∧ 5 < c1)
    ∧ ∃ c1 : Nat,
        checkpoint (runTicks exEth exWatcher [exEnv 5000 [] true, exEnv 5000 [] true]
          ⟨[], [⟨1, 5⟩]⟩) = some c1 ∧ 5 ≤ c1
        ∧ requestedBlocks (runRequests exEth exWatcher [exEnv 5000 [] true, exEnv 5000 [] true]
            ⟨[], [⟨1, 5⟩]⟩) = blockRange (((5 : Nat) : Int) + 1) c1
        ∧ ∀ b : Int, (requestedBlocks (runRequests exEth exWatcher
            [exEnv 5000 [] true, exEnv 5000 [] true] ⟨[], [⟨1, 5⟩]⟩)).count b
            = if ((5 : Nat) : Int) < b ∧ b ≤ c1 then 1 else 0 :=
  ⟨by decide, by decide, by decide,
    (C8_scans_are_contiguous exEth exWatcher ⟨[], [⟨1, 5⟩]⟩ 5 (by decide)).1 _ (by decide),
    (C8_scans_are_contiguous exEth exWatcher ⟨[], [⟨1, 5⟩]⟩ 5 (by decide)).2 _ (by decide)⟩

/-- C1 (fails on the code): a tick with checkpoint 0 and head 10 fetches one
`InvoicePaid` log for the pending invoice 42 and the handler's `UpdateStatus`
fails. The invoice stays PENDING (with a successful write the same tick marks it
PAID), and still the checkpoint moves from 0 to 8, the upper bound of the range. -/
theorem C1_checkpoint_advances_after_failed_write :
    FindByOnchainID "42" [exInvoice] = some exInvoice
      ∧ exInvoice.Status = StatusPending
      ∧ UpdateStatus false 100 7 StatusPaid exPaidLog.TxHash.Hex
          ((BytesToAddress (exPaidLog.Topics.getD 2 ⟨[]⟩).bytes).Hex exEth) [exInvoice] = none
      ∧ (pollLogs exEth exWatcher (exEnv 10 [exPaidLog] true)
          ⟨[exInvoice], [⟨1, 0⟩]⟩).1.invoice.map Invoice.Status = [StatusPaid]
      ∧ (pollLogs exEth exWatcher (exEnv 10 [exPaidLog] false)
          ⟨[exInvoice], [⟨1, 0⟩]⟩).1.invoice = [exInvoice]
      ∧ checkpoint ⟨[exInvoice], [⟨1, 0⟩]⟩ = some 0
      ∧ checkpoint (pollLogs exEth exWatcher (exEnv 10 [exPaidLog] false)
          ⟨[exInvoice], [⟨1, 0⟩]⟩).1 = some 8 := by
  refine ⟨?_, ?_, ?_, ?_, ?_, ?_, ?_⟩ <;> decide

/-- A handler whose store write fails leaves the invoice table as it was. -/
theorem handlers_failed_write (eth : Eth) (w : Watcher) (now : Time) (vLog : Log)
    (s : List Invoice) :
    handleInvoiceCreated w false now vLog s = s ∧ handleInvoicePaid eth w false now vLog s = s := by
  constructor
  · unfold handleInvoiceCreated
    simp only [UpdateOnchainID]
    repeat' split
    all_goals first | rfl | simp_all
  · unfold handleInvoicePaid
    simp only [UpdateStatus]
    repeat' split
    all_goals first | rfl | simp_all

theorem parseContractEvents_failed_write (eth : Eth) (w : Watcher) (now : Nat → Time)
    (logs : List Log) :
    ∀ (k : Nat) (s : List Invoice),
      parseContractEvents eth w (fun _ => false) now k logs s = s := by
  induction logs with
  | nil => intro k s; rfl
  | cons lg rest ih =>
    intro k s
    simp only [parseContractEvents, (handlers_failed_write eth w (now k) lg s).1,
      (handlers_failed_write eth w (now k) lg s).2, ih]
    repeat' split
    all_goals rfl

/-- The loop iteration of `pollLogs` for a log whose store write fails leaves the
invoice table as it was. -/
theorem processLogs_failed_write (eth : Eth) (w : Watcher) (env : Env) (k : Nat) (vLog : Log)
    (s : List Invoice) (hk : env.writeOk k = false) :
    processLogs eth w env k [vLog] s = s := by
  simp only [processLogs, hk]
  exact parseContractEvents_failed_write eth w _ [vLog] 0 s

theorem processLogs_all_failed (eth : Eth) (w : Watcher) (env : Env)
    (hall : ∀ k, env.writeOk k = false) (logs : List Log) :
    ∀ (k : Nat) (s : List Invoice), processLogs eth w env k logs s = s := by
  induction logs with
  | nil => intro k s; rfl
  | cons lg rest ih =>
    intro k s
    simp only [processLogs, hall k]
    rw [parseContractEvents_failed_write eth w _ [lg] 0 s]
    exact ih (k + 1) s

/-- C1 (amended): in a successful scanning tick from the checkpoint record
`⟨1, c⟩` (the head read, the read of the checkpoint, the log fetch and the
checkpoint write succeed) every fetched log is handed to its handler in batch
order (the invoice table after the tick is the result of the loop over the logs),
and the checkpoint is advanced to the upper bound of the request whatever the
outcomes `env.writeOk` of the handlers' store writes. The loop iteration of a
log whose store write fails leaves the invoice table as it was; if every store
write of the batch fails, the table after the tick is the table before it. -/
theorem C1_checkpoint_advances_after_dispatch (eth : Eth) (w : Watcher) (env : Env) (db : DB)
    (c : Nat)
    (hr : first AppState.ID (fun _ => true) db.appState = some ⟨1, c⟩)
    (hs : scanOk eth w env db = true) :
    ∃ (q : FilterQuery) (logs : List Log) (c1 : Nat),
      (pollLogs eth w env db).2 = some q ∧ env.FilterLogs q = some logs
      ∧ (pollLogs eth w env db).1.invoice = processLogs eth w env 0 logs db.invoice
      ∧ checkpoint (pollLogs eth w env db).1 = some c1 ∧ q.ToBlock = (c1 : Int) ∧ c < c1
      ∧ (∀ (k : Nat) (vLog : Log) (s : List Invoice), env.writeOk k = false →
          processLogs eth w env k [vLog] s = s)
      ∧ ((∀ k, env.writeOk k = false) → (pollLogs eth w env db).1.invoice = db.invoice) := by
  obtain ⟨q, logs, c1, hq, hlogs, _, hto, hlt, hafter, hinv⟩ := scan_tick eth w env db c hr hs
  refine ⟨q, logs, c1, hq, hlogs, hinv, by simp [checkpoint, hafter], hto, hlt,
    fun k vLog s hk => processLogs_failed_write eth w env k vLog s hk, fun hall => ?_⟩
  rw [hinv]
  exact processLogs_all_failed eth w env hall logs 0 db.invoice

theorem C1_checkpoint_advances_after_dispatch_witness :
    first AppState.ID (fun _ => true) (⟨[exInvoice], [⟨1, 0⟩]⟩ : DB).appState = some ⟨1, 0⟩
      ∧ scanOk exEth exWatcher (exEnv 10 [exPaidLog] false) ⟨[exInvoice], [⟨1, 0⟩]⟩ = true
      ∧ (pollLogs exEth exWatcher (exEnv 10 [exPaidLog] false) ⟨[exInvoice], [⟨1, 0⟩]⟩).1
          = ⟨[exInvoice], [⟨1, 8⟩]⟩
      ∧ (pollLogs exEth exWatcher (exEnv 10 [exPaidLog] true)
          ⟨[exInvoice], [⟨1, 0⟩]⟩).1.invoice.map Invoice.Status = [StatusPaid]
      ∧ ∃ (q : FilterQuery) (logs : List Log) (c1 : Nat),
          (pollLogs exEth exWatcher (exEnv 10 [exPaidLog] false) ⟨[exInvoice], [⟨1, 0⟩]⟩).2
            = some q
          ∧ (exEnv 10 [exPaidLog] false).FilterLogs q = some logs
          ∧ (pollLogs exEth exWatcher (exEnv 10 [exPaidLog] false)
              ⟨[exInvoice], [⟨1, 0⟩]⟩).1.invoice
            = processLogs exEth exWatcher (exEnv 10 [exPaidLog] false) 0 logs
                (⟨[exInvoice], [⟨1, 0⟩]⟩ : DB).invoice
          ∧ checkpoint (pollLogs exEth exWatcher (exEnv 10 [exPaidLog] false)
              ⟨[exInvoice], [⟨1, 0⟩]⟩).1 = some c1
          ∧ q.ToBlock = (c1 : Int) ∧ 0 < c1
          ∧ (∀ (k : Nat) (vLog : Log) (s : List Invoice),
              (exEnv 10 [exPaidLog] false).writeOk k = false →
              processLogs exEth exWatcher (exEnv 10 [exPaidLog] false) k [vLog] s = s)
          ∧ ((∀ k, (exEnv 10 [exPaidLog] false).writeOk k = false) →
              (pollLogs exEth exWatcher (exEnv 10 [exPaidLog] false)
                ⟨[exInvoice], [⟨1, 0⟩]⟩).1.invoice = (⟨[exInvoice], [⟨1, 0⟩]⟩ : DB).invoice) :=
  ⟨by decide, by decide, by decide, by decide,
    C1_checkpoint_advances_after_dispatch exEth exWatcher (exEnv 10 [exPaidLog] false)
      ⟨[exInvoice], [⟨1, 0⟩]⟩ 0 (by decide) (by decide)⟩

/-! ## Lemmas on the handlers -/

theorem hashHex_ne_empty (h : Hash) : h.Hex ≠ "" := by
  intro e
  have := congrArg String.data e
  simp [Hash.Hex] at this

theorem addressHex_ne_empty (eth : Eth) (a : Address) : a.Hex eth ≠ "" := by
  intro e
  have := congrArg String.data e
  simp [Address.Hex] at this

theorem toDigitsCore_ne_nil (b : Nat) :
    ∀ (fuel n : Nat) (ds : List Char), (ds ≠ [] ∨ 0 < fuel) → Nat.toDigitsCore b fuel n ds ≠ [] := by
  intro fuel
  induction fuel with
  | zero =>
    intro n ds h
    rcases h with h | h
    · simpa [Nat.toDigitsCore] using h
    · omega
  | succ fuel ih =>
    intro n ds _
    simp only [Nat.toDigitsCore]
    split
    · simp
    · exact ih _ _ (Or.inl (by simp))

theorem toString_nat_ne_empty (n : Nat) : toString n ≠ "" := by
  intro e
  have h := congrArg String.data e
  simp only [toString, Nat.repr, List.asString] at h
  exact toDigitsCore_ne_nil 10 (n + 1) n [] (Or.inr (Nat.succ_pos _)) h

/-- The paid handler either leaves the table as it is, or it found a row that is
not PAID, the write succeeded, and the payment is recorded on the rows with that
primary key. -/
theorem handleInvoicePaid_cases (eth : Eth) (w : Watcher) (ok : Bool) (now : Time) (vLog : Log)
    (s : List Invoice) :
    handleInvoicePaid eth w ok now vLog s = s
      ∨ ∃ i, FindByOnchainID (toString vLog.invoiceId) s = some i ∧ i.Status ≠ StatusPaid
          ∧ ok = true
          ∧ handleInvoicePaid eth w ok now vLog s
              = s.map (markPaid i.ID vLog.TxHash.Hex (vLog.payer.Hex eth) now) := by
  unfold handleInvoicePaid
  by_cases h1 : (!w.contractABI.UnpackIntoInterface "InvoicePaid" vLog.Data) = true
  · simp [h1]
  by_cases h2 : vLog.Topics.length < 3
  · simp [h2]
  simp only [h1, h2, if_false, Bool.false_eq_true]
  cases hf : FindByOnchainID (toString (SetBytes (vLog.Topics.getD 1 ⟨[]⟩).bytes)) s with
  | none => simp
  | some i =>
    by_cases hp : i.Status = StatusPaid
    · simp [hp]
    cases ok with
    | false => simp [UpdateStatus]
    | true =>
      right
      refine ⟨i, hf, hp, rfl, ?_⟩
      have e1 : (vLog.TxHash.Hex != "") = true := by simpa using hashHex_ne_empty _
      have e2 : ((BytesToAddress (vLog.Topics.getD 2 ⟨[]⟩).bytes).Hex eth != "") = true := by
        simpa using addressHex_ne_empty eth _
      simp only [hp, if_false, UpdateStatus, if_true, e1, e2]
      rfl

/-- The created handler either leaves the table as it is, or it found an
unlinked row, the write succeeded, and the id is linked on the rows with that
primary key. -/
theorem handleInvoiceCreated_cases (w : Watcher) (ok : Bool) (now : Time) (vLog : Log)
    (s : List Invoice) :
    handleInvoiceCreated w ok now vLog s = s
      ∨ ∃ i, FindByTxHash vLog.TxHash.Hex s = some i ∧ i.OnchainInvoiceID = ""
          ∧ ok = true
          ∧ handleInvoiceCreated w ok now vLog s
              = s.map (linkOnchain i.ID (toString vLog.invoiceId) now) := by
  unfold handleInvoiceCreated
  by_cases h1 : (!w.contractABI.UnpackIntoInterface "InvoiceCreated" vLog.Data) = true
  · simp [h1]
  by_cases h2 : vLog.Topics.length < 2
  · simp [h2]
  simp only [h1, h2, if_false, Bool.false_eq_true]
  cases hf : FindByTxHash vLog.TxHash.Hex s with
  | none => simp
  | some i =>
    by_cases hp : i.OnchainInvoiceID = ""
    · cases ok with
      | false => simp [UpdateOnchainID]
      | true =>
        right
        refine ⟨i, rfl, hp, rfl, ?_⟩
        simp only [hp, bne_self_eq_false, Bool.false_eq_true, if_false, UpdateOnchainID, if_true]
        rfl
    · simp [hp]

theorem markPaid_ID (id : Nat) (t p : String) (now : Time) (r : Invoice) :
    (markPaid id t p now r).ID = r.ID := by
  unfold markPaid
  split <;> rfl

theorem linkOnchain_ID (id : Nat) (o : String) (now : Time) (r : Invoice) :
    (linkOnchain id o now r).ID = r.ID := by
  unfold linkOnchain
  split <;> rfl

theorem FindByOnchainID_markPaid (o : String) (id : Nat) (t p : String) (now : Time)
    (s : List Invoice) :
    FindByOnchainID o (s.map (markPaid id t p now))
      = (FindByOnchainID o s).map (markPaid id t p now) := by
  unfold FindByOnchainID
  apply first_map
  · exact markPaid_ID id t p now
  · intro r
    unfold markPaid
    split <;> rfl

theorem FindByTxHash_linkOnchain (t : String) (id : Nat) (o : String) (now : Time)
    (s : List Invoice) :
    FindByTxHash t (s.map (linkOnchain id o now))
      = (FindByTxHash t s).map (linkOnchain id o now) := by
  unfold FindByTxHash
  apply first_map
  · exact linkOnchain_ID id o now
  · intro r
    unfold linkOnchain
    split <;> rfl

theorem handleInvoicePaid_undecoded (eth : Eth) (w : Watcher) (ok : Bool) (now : Time)
    (vLog : Log) (s : List Invoice)
    (h : w.contractABI.UnpackIntoInterface "InvoicePaid" vLog.Data = false
      ∨ vLog.Topics.length < 3) :
    handleInvoicePaid eth w ok now vLog s = s := by
  unfold handleInvoicePaid
  rcases h with h | h
  · rw [h]
    rfl
  · simp [h]

theorem handleInvoicePaid_none (eth : Eth) (w : Watcher) (ok : Bool) (now : Time)
    (vLog : Log) (s : List Invoice)
    (hf : FindByOnchainID (toString vLog.invoiceId) s = none) :
    handleInvoicePaid eth w ok now vLog s = s := by
  unfold Log.invoiceId at hf
  unfold handleInvoicePaid
  simp only [hf]
  split
  · rfl
  · split <;> rfl

theorem handleInvoicePaid_paid (eth : Eth) (w : Watcher) (ok : Bool) (now : Time)
    (vLog : Log) (s : List Invoice) (i : Invoice)
    (hf : FindByOnchainID (toString vLog.invoiceId) s = some i) (hp : i.Status = StatusPaid) :
    handleInvoicePaid eth w ok now vLog s = s := by
  unfold Log.invoiceId at hf
  unfold handleInvoicePaid
  simp only [hf, hp, if_true]
  split
  · rfl
  · split <;> rfl

theorem handleInvoicePaid_mark (eth : Eth) (w : Watcher) (now : Time)
    (vLog : Log) (s : List Invoice) (i : Invoice)
    (hdec : w.contractABI.UnpackIntoInterface "InvoicePaid" vLog.Data = true)
    (htop : 3 ≤ vLog.Topics.length)
    (hf : FindByOnchainID (toString vLog.invoiceId) s = some i) (hp : i.Status ≠ StatusPaid) :
    handleInvoicePaid eth w true now vLog s
      = s.map (markPaid i.ID vLog.TxHash.Hex (vLog.payer.Hex eth) now) := by
  unfold Log.invoiceId at hf
  have e1 : (vLog.TxHash.Hex != "") = true := by simpa using hashHex_ne_empty _
  have e2 : ((BytesToAddress (vLog.Topics.getD 2 ⟨[]⟩).bytes).Hex eth != "") = true := by
    simpa using addressHex_ne_empty eth _
  have h3 : ¬ vLog.Topics.length < 3 := by omega
  simp only [handleInvoicePaid, hdec, h3, hf, hp, UpdateStatus, e1, e2]
  rfl

theorem handleInvoiceCreated_undecoded (w : Watcher) (ok : Bool) (now : Time)
    (vLog : Log) (s : List Invoice)
    (h : w.contractABI.UnpackIntoInterface "InvoiceCreated" vLog.Data = false
      ∨ vLog.Topics.length < 2) :
    handleInvoiceCreated w ok now vLog s = s := by
  unfold handleInvoiceCreated
  rcases h with h | h
  · rw [h]
    rfl
  · simp [h]

theorem handleInvoiceCreated_none (w : Watcher) (ok : Bool) (now : Time)
    (vLog : Log) (s : List Invoice)
    (hf : FindByTxHash vLog.TxHash.Hex s = none) :
    handleInvoiceCreated w ok now vLog s = s := by
  unfold handleInvoiceCreated
  simp only [hf]
  split
  · rfl
  · split <;> rfl

theorem handleInvoiceCreated_linked (w : Watcher) (ok : Bool) (now : Time)
    (vLog : Log) (s : List Invoice) (i : Invoice)
    (hf : FindByTxHash vLog.TxHash.Hex s = some i) (hp : i.OnchainInvoiceID ≠ "") :
    handleInvoiceCreated w ok now vLog s = s := by
  unfold handleInvoiceCreated
  have hb : (i.OnchainInvoiceID != "") = true := by simpa using hp
  simp only [hf, hb, if_true]
  split
  · rfl
  · split <;> rfl

theorem handleInvoiceCreated_link (w : Watcher) (now : Time)
    (vLog : Log) (s : List Invoice) (i : Invoice)
    (hdec : w.contractABI.UnpackIntoInterface "InvoiceCreated" vLog.Data = true)
    (htop : 2 ≤ vLog.Topics.length)
    (hf : FindByTxHash vLog.TxHash.Hex s = some i) (hp : i.OnchainInvoiceID = "") :
    handleInvoiceCreated w true now vLog s
      = s.map (linkOnchain i.ID (toString vLog.invoiceId) now) := by
  have h2 : ¬ vLog.Topics.length < 2 := by omega
  simp only [handleInvoiceCreated, hdec, h2, hf, hp, UpdateOnchainID]
  rfl

theorem handleInvoiceCreated_twice (w : Watcher) (ok2 : Bool) (now1 now2 : Time) (vLog : Log)
    (s : List Invoice) :
    handleInvoiceCreated w ok2 now2 vLog (handleInvoiceCreated w true now1 vLog s)
      = handleInvoiceCreated w true now1 vLog s := by
  by_cases h1 : w.contractABI.UnpackIntoInterface "InvoiceCreated" vLog.Data = false
  · simp only [handleInvoiceCreated_undecoded w _ _ vLog _ (Or.inl h1)]
  by_cases h2 : vLog.Topics.length < 2
  · simp only [handleInvoiceCreated_undecoded w _ _ vLog _ (Or.inr h2)]
  cases hf : FindByTxHash vLog.TxHash.Hex s with
  | none => simp only [handleInvoiceCreated_none w _ _ vLog _ hf]
  | some i =>
    by_cases hp : i.OnchainInvoiceID = ""
    · rw [handleInvoiceCreated_link w now1 vLog s i (by simpa using h1) (by omega) hf hp]
      have hf2 := FindByTxHash_linkOnchain vLog.TxHash.Hex i.ID (toString vLog.invoiceId) now1 s
      rw [hf, Option.map_some'] at hf2
      apply handleInvoiceCreated_linked w ok2 now2 vLog _ _ hf2
      simp only [linkOnchain, if_true]
      exact toString_nat_ne_empty _
    · simp only [handleInvoiceCreated_linked w _ _ vLog _ i hf hp]

theorem handleInvoicePaid_twice (eth : Eth) (w : Watcher) (ok2 : Bool) (now1 now2 : Time)
    (vLog : Log) (s : List Invoice) :
    handleInvoicePaid eth w ok2 now2 vLog (handleInvoicePaid eth w true now1 vLog s)
      = handleInvoicePaid eth w true now1 vLog s := by
  by_cases h1 : w.contractABI.UnpackIntoInterface "InvoicePaid" vLog.Data = false
  · simp only [handleInvoicePaid_undecoded eth w _ _ vLog _ (Or.inl h1)]
  by_cases h2 : vLog.Topics.length < 3
  · simp only [handleInvoicePaid_undecoded eth w _ _ vLog _ (Or.inr h2)]
  cases hf : FindByOnchainID (toString vLog.invoiceId) s with
  | none => simp only [handleInvoicePaid_none eth w _ _ vLog _ hf]
  | some i =>
    by_cases hp : i.Status = StatusPaid
    · simp only [handleInvoicePaid_paid eth w _ _ vLog _ i hf hp]
    · rw [handleInvoicePaid_mark eth w now1 vLog s i (by simpa using h1) (by omega) hf hp]
      have hf2 := FindByOnchainID_markPaid (toString vLog.invoiceId) i.ID vLog.TxHash.Hex
        (vLog.payer.Hex eth) now1 s
      rw [hf, Option.map_some'] at hf2
      apply handleInvoicePaid_paid eth w ok2 now2 vLog _ _ hf2
      simp [markPaid]

/-! ## Claims on the handlers -/

/-- C2: for a decoded `InvoicePaid` log with on-chain id `n`, payer `p` and
transaction hash `t`: if the invoice `FindByOnchainID` returns for the decimal
string of `n` is PENDING or EXPIRED then, the store write succeeding,
`handleInvoicePaid` makes that invoice PAID with `payerAddress = p` and
`txHash = t` and leaves every other invoice unchanged; if no invoice has that
on-chain id the store is unchanged. -/
theorem C2_paid_recorded_over_pending_or_expired (eth : Eth) (w : Watcher) (now : Time)
    (vLog : Log) (s : List Invoice)
    (hdec : w.contractABI.UnpackIntoInterface "InvoicePaid" vLog.Data = true)
    (htop : 3 ≤ vLog.Topics.length) :
    (∀ i, FindByOnchainID (toString vLog.invoiceId) s = some i →
        (i.Status = StatusPending ∨ i.Status = StatusExpired) →
        i ∈ s ∧ i.OnchainInvoiceID = toString vLog.invoiceId
        ∧ List.Forall₂ (fun a b =>
            (a.ID ≠ i.ID → b = a)
            ∧ (a.ID = i.ID → b =
                { a with
                  Status := StatusPaid
                  TxHash := some vLog.TxHash.Hex
                  PayerAddress := some (vLog.payer.Hex eth)
                  UpdatedAt := now }))
          s (handleInvoicePaid eth w true now vLog s))
    ∧ ((∀ r ∈ s, r.OnchainInvoiceID ≠ toString vLog.invoiceId) →
        ∀ ok, handleInvoicePaid eth w ok now vLog s = s) := by
  constructor
  · intro i hf hst
    have hp : i.Status ≠ StatusPaid := by
      rcases hst with h | h <;> rw [h] <;> decide
    have hm := first_mem _ _ _ _ hf
    refine ⟨hm.1, by simpa using hm.2, ?_⟩
    rw [handleInvoicePaid_mark eth w now vLog s i hdec htop hf hp, List.forall₂_map_right_iff,
      List.forall₂_same]
    intro a _
    unfold markPaid
    constructor
    · intro h
      rw [if_neg h]
    · intro h
      rw [if_pos h]
  · intro hno ok
    apply handleInvoicePaid_none
    unfold FindByOnchainID
    rw [first_eq_none]
    intro r hr
    simpa using hno r hr

theorem C2_paid_recorded_over_pending_or_expired_witness :
    exWatcher.contractABI.UnpackIntoInterface "InvoicePaid" exPaidLog.Data = true
    ∧ 3 ≤ exPaidLog.Topics.length
    ∧ FindByOnchainID (toString exPaidLog.invoiceId) [{ exInvoice with Status := StatusExpired }]
        = some { exInvoice with Status := StatusExpired }
    ∧ handleInvoicePaid exEth exWatcher true 100 exPaidLog [{ exInvoice with Status := StatusExpired }]
        = [{ exInvoice with
              Status := StatusPaid
              TxHash := some "0xabababababababababababababababababababababababababababababababab"
              PayerAddress := some "0x00000000000000000000000000000000000000aa"
              UpdatedAt := 100 }]
    ∧ ((∀ i, FindByOnchainID (toString exPaidLog.invoiceId)
            [{ exInvoice with Status := StatusExpired }] = some i →
          (i.Status = StatusPending ∨ i.Status = StatusExpired) →
          i ∈ [{ exInvoice with Status := StatusExpired }]
          ∧ i.OnchainInvoiceID = toString exPaidLog.invoiceId
          ∧ List.Forall₂ (fun a b =>
              (a.ID ≠ i.ID → b = a)
              ∧ (a.ID = i.ID → b =
                  { a with
                    Status := StatusPaid
                    TxHash := some exPaidLog.TxHash.Hex
                    PayerAddress := some (exPaidLog.payer.Hex exEth)
                    UpdatedAt := 100 }))
            [{ exInvoice with Status := StatusExpired }]
            (handleInvoicePaid exEth exWatcher true 100 exPaidLog
              [{ exInvoice with Status := StatusExpired }]))
      ∧ ((∀ r ∈ [{ exInvoice with Status := StatusExpired }],
            r.OnchainInvoiceID ≠ toString exPaidLog.invoiceId) →
          ∀ ok, handleInvoicePaid exEth exWatcher ok 100 exPaidLog
            [{ exInvoice with Status := StatusExpired }]
              = [{ exInvoice with Status := StatusExpired }])) :=
  ⟨by decide, by decide, by decide, by decide,
    C2_paid_recorded_over_pending_or_expired exEth exWatcher 100 exPaidLog
      [{ exInvoice with Status := StatusExpired }] (by decide) (by decide)⟩

/-- C4: applying the handler of a log twice in a row gives the same invoice table
as applying it once, for `InvoiceCreated` and for `InvoicePaid`, when the store
write of the first application succeeds (the second application writes nothing,
at whatever time and with whatever write outcome it runs). -/
theorem C4_handlers_idempotent (eth : Eth) (w : Watcher) (ok2 : Bool) (now1 now2 : Time)
    (vLog : Log) (s : List Invoice) :
    handleInvoiceCreated w ok2 now2 vLog (handleInvoiceCreated w true now1 vLog s)
        = handleInvoiceCreated w true now1 vLog s
      ∧ handleInvoicePaid eth w ok2 now2 vLog (handleInvoicePaid eth w true now1 vLog s)
        = handleInvoicePaid eth w true now1 vLog s :=
  ⟨handleInvoiceCreated_twice w ok2 now1 now2 vLog s,
    handleInvoicePaid_twice eth w ok2 now1 now2 vLog s⟩

/-- C9: `handleInvoiceCreated`, for a log with transaction hash `t` and indexed
id `n`, changes the invoice table only if the invoice `FindByTxHash` returns for
`t` has an empty `onchainInvoiceId`; the change then is that on this invoice
`onchainInvoiceId` becomes the decimal string of `n`, while its id, status,
amountWei, merchantAddress, expiresAt, txHash, payerAddress and createdAt and
every other invoice stay as they were. With no invoice matching `t`, or with the
matching invoice already linked (the one `FindByTxHash` returns, or all of them),
the table is unchanged; with the matching invoice unlinked, the log decoded and
the write succeeding, the link is made. -/
theorem C9_created_only_links (w : Watcher) (ok : Bool) (now : Time) (vLog : Log)
    (s : List Invoice) :
    (handleInvoiceCreated w ok now vLog s ≠ s →
      ∃ i ∈ s, FindByTxHash vLog.TxHash.Hex s = some i ∧ i.TxHash = some vLog.TxHash.Hex
        ∧ i.OnchainInvoiceID = ""
        ∧ List.Forall₂ (fun a b =>
            (a.ID ≠ i.ID → b = a)
            ∧ (a.ID = i.ID → b.OnchainInvoiceID = toString vLog.invoiceId)
            ∧ b.ID = a.ID ∧ b.Status = a.Status ∧ b.AmountWei = a.AmountWei
            ∧ b.MerchantAddress = a.MerchantAddress ∧ b.ExpiresAt = a.ExpiresAt
            ∧ b.TxHash = a.TxHash ∧ b.PayerAddress = a.PayerAddress ∧ b.CreatedAt = a.CreatedAt)
          s (handleInvoiceCreated w ok now vLog s))
    ∧ ((∀ r ∈ s, r.TxHash ≠ some vLog.TxHash.Hex) → handleInvoiceCreated w ok now vLog s = s)
    ∧ (∀ i, FindByTxHash vLog.TxHash.Hex s = some i → i.OnchainInvoiceID ≠ "" →
        handleInvoiceCreated w ok now vLog s = s)
    ∧ ((∀ r ∈ s, r.TxHash = some vLog.TxHash.Hex → r.OnchainInvoiceID ≠ "") →
        handleInvoiceCreated w ok now vLog s = s)
    ∧ (∀ i, FindByTxHash vLog.TxHash.Hex s = some i → i.OnchainInvoiceID = "" →
        w.contractABI.UnpackIntoInterface "InvoiceCreated" vLog.Data = true →
        2 ≤ vLog.Topics.length →
        handleInvoiceCreated w true now vLog s ≠ s
        ∧ FindByTxHash vLog.TxHash.Hex (handleInvoiceCreated w true now vLog s)
            = some { i with OnchainInvoiceID := toString vLog.invoiceId, UpdatedAt := now }) := by
  refine ⟨?_, ?_, ?_, ?_, ?_⟩
  · intro hne
    rcases handleInvoiceCreated_cases w ok now vLog s with e | ⟨i, hf, hp, _, e⟩
    · exact absurd e hne
    · have hm := first_mem _ _ _ _ hf
      refine ⟨i, hm.1, hf, by simpa using hm.2, hp, ?_⟩
      rw [e, List.forall₂_map_right_iff, List.forall₂_same]
      intro a _
      unfold linkOnchain
      by_cases h : a.ID = i.ID
      · simp [h]
      · simp [h]
  · intro hno
    apply handleInvoiceCreated_none
    unfold FindByTxHash
    rw [first_eq_none]
    intro r hr
    simpa using hno r hr
  · intro i hf hp
    exact handleInvoiceCreated_linked w ok now vLog s i hf hp
  · intro hall
    cases hf : FindByTxHash vLog.TxHash.Hex s with
    | none => exact handleInvoiceCreated_none w ok now vLog s hf
    | some i =>
      have hm := first_mem _ _ _ _ hf
      exact handleInvoiceCreated_linked w ok now vLog s i hf (hall i hm.1 (by simpa using hm.2))
  · intro i hf hp hdec htop
    have e := handleInvoiceCreated_link w now vLog s i hdec htop hf hp
    have hf2 := FindByTxHash_linkOnchain vLog.TxHash.Hex i.ID (toString vLog.invoiceId) now s
    rw [hf, Option.map_some'] at hf2
    have hi : linkOnchain i.ID (toString vLog.invoiceId) now i
        = { i with OnchainInvoiceID := toString vLog.invoiceId, UpdatedAt := now } := by
      simp [linkOnchain]
    constructor
    · intro hs
      rw [hs] at e
      rw [← e, hf, hi] at hf2
      have h2 := congrArg Invoice.OnchainInvoiceID (Option.some.inj hf2)
      rw [hp] at h2
      exact toString_nat_ne_empty _ h2.symm
    · rw [e, hf2, hi]

theorem C9_created_only_links_witness :
    handleInvoiceCreated exWatcher true 100 exCreatedLog [exInvoice, exUnlinked]
        = [exInvoice, { exUnlinked with OnchainInvoiceID := "42", UpdatedAt := 100 }]
    ∧ handleInvoiceCreated exWatcher true 100 exCreatedLog [exInvoice, exUnlinked]
        ≠ [exInvoice, exUnlinked]
    ∧ ∃ i ∈ [exInvoice, exUnlinked],
        FindByTxHash exCreatedLog.TxHash.Hex [exInvoice, exUnlinked] = some i
        ∧ i.TxHash = some exCreatedLog.TxHash.Hex
        ∧ i.OnchainInvoiceID = ""
        ∧ List.Forall₂ (fun a b =>
            (a.ID ≠ i.ID → b = a)
            ∧ (a.ID = i.ID → b.OnchainInvoiceID = toString exCreatedLog.invoiceId)
            ∧ b.ID = a.ID ∧ b.Status = a.Status ∧ b.AmountWei = a.AmountWei
            ∧ b.MerchantAddress = a.MerchantAddress ∧ b.ExpiresAt = a.ExpiresAt
            ∧ b.TxHash = a.TxHash ∧ b.PayerAddress = a.PayerAddress ∧ b.CreatedAt = a.CreatedAt)
          [exInvoice, exUnlinked]
          (handleInvoiceCreated exWatcher true 100 exCreatedLog [exInvoice, exUnlinked]) :=
  ⟨by decide, by decide,
    (C9_created_only_links exWatcher true 100 exCreatedLog [exInvoice, exUnlinked]).1 (by decide)⟩

/-! ## What every writer keeps -/

theorem Keeps.refl (a : Invoice) : Keeps a a :=
  ⟨rfl, fun h => ⟨h, rfl, rfl⟩, fun _ => rfl⟩

theorem Keeps.trans {a b c : Invoice} (h1 : Keeps a b) (h2 : Keeps b c) : Keeps a c := by
  obtain ⟨i1, p1, o1⟩ := h1
  obtain ⟨i2, p2, o2⟩ := h2
  refine ⟨i2.trans i1, fun h => ?_, fun h => ?_⟩
  · obtain ⟨s1, t1, q1⟩ := p1 h
    obtain ⟨s2, t2, q2⟩ := p2 s1
    exact ⟨s2, t2.trans t1, q2.trans q1⟩
  · have e1 := o1 h
    have e2 := o2 (by rw [e1]; exact h)
    exact e2.trans e1

theorem forall₂_keeps_trans {s1 s2 s3 : List Invoice} (h1 : List.Forall₂ Keeps s1 s2)
    (h2 : List.Forall₂ Keeps s2 s3) : List.Forall₂ Keeps s1 s3 := by
  induction h1 generalizing s3 with
  | nil => cases h2; exact List.Forall₂.nil
  | cons hab _ ih =>
    cases h2 with
    | cons hbc htl => exact List.Forall₂.cons (hab.trans hbc) (ih htl)

theorem forall₂_keeps_ids {s1 s2 : List Invoice} (h : List.Forall₂ Keeps s1 s2) :
    s2.map Invoice.ID = s1.map Invoice.ID := by
  induction h with
  | nil => rfl
  | cons hab _ ih => simp [hab.1, ih]

theorem id_inj_of_nodup {s : List Invoice} (hnd : (s.map Invoice.ID).Nodup) {a b : Invoice}
    (ha : a ∈ s) (hb : b ∈ s) (h : a.ID = b.ID) : a = b :=
  List.inj_on_of_nodup_map hnd ha hb h

theorem expiryTick_keeps (ok : Bool) (stamp now : Time) (s : List Invoice) :
    List.Forall₂ Keeps s (expiryTick ok stamp now s) := by
  unfold expiryTick UpdateExpired
  cases ok with
  | false => exact List.forall₂_same.mpr fun a _ => Keeps.refl a
  | true =>
    simp only [if_true]
    rw [List.forall₂_map_right_iff, List.forall₂_same]
    intro a _
    by_cases h : a.Status = StatusPending ∧ a.ExpiresAt < now
    · rw [if_pos h]
      refine ⟨rfl, fun hp => ?_, fun _ => rfl⟩
      rw [h.1] at hp
      exact absurd hp (by decide)
    · rw [if_neg h]
      exact Keeps.refl a

theorem handleInvoiceCreated_keeps (w : Watcher) (ok : Bool) (now : Time) (vLog : Log)
    (s : List Invoice) (hnd : (s.map Invoice.ID).Nodup) :
    List.Forall₂ Keeps s (handleInvoiceCreated w ok now vLog s) := by
  rcases handleInvoiceCreated_cases w ok now vLog s with e | ⟨i, hf, hp, _, e⟩
  · rw [e]
    exact List.forall₂_same.mpr fun a _ => Keeps.refl a
  · rw [e, List.forall₂_map_right_iff, List.forall₂_same]
    intro a ha
    unfold linkOnchain
    by_cases h : a.ID = i.ID
    · rw [if_pos h]
      have hai : a = i := id_inj_of_nodup hnd ha (first_mem _ _ _ _ hf).1 h
      refine ⟨rfl, fun hs => ⟨hs, rfl, rfl⟩, fun ho => ?_⟩
      rw [hai] at ho
      exact absurd hp ho
    · rw [if_neg h]
      exact Keeps.refl a

theorem handleInvoicePaid_keeps (eth : Eth) (w : Watcher) (ok : Bool) (now : Time) (vLog : Log)
    (s : List Invoice) (hnd : (s.map Invoice.ID).Nodup) :
    List.Forall₂ Keeps s (handleInvoicePaid eth w ok now vLog s) := by
  rcases handleInvoicePaid_cases eth w ok now vLog s with e | ⟨i, hf, hp, _, e⟩
  · rw [e]
    exact List.forall₂_same.mpr fun a _ => Keeps.refl a
  · rw [e, List.forall₂_map_right_iff, List.forall₂_same]
    intro a ha
    unfold markPaid
    by_cases h : a.ID = i.ID
    · rw [if_pos h]
      have hai : a = i := id_inj_of_nodup hnd ha (first_mem _ _ _ _ hf).1 h
      refine ⟨rfl, fun hs => ?_, fun _ => rfl⟩
      rw [hai] at hs
      exact absurd hs hp
    · rw [if_neg h]
      exact Keeps.refl a

theorem runOps_keeps (eth : Eth) (w : Watcher) (ops : List StoreOp) (s : List Invoice)
    (hnd : (s.map Invoice.ID).Nodup) :
    List.Forall₂ Keeps s (runOps eth w ops s) := by
  induction ops generalizing s with
  | nil => exact List.forall₂_same.mpr fun a _ => Keeps.refl a
  | cons op ops ih =>
    have h1 : List.Forall₂ Keeps s (op.apply eth w s) := by
      cases op with
      | sweep ok stamp now => exact expiryTick_keeps ok stamp now s
      | created ok now vLog => exact handleInvoiceCreated_keeps w ok now vLog s hnd
      | paid ok now vLog => exact handleInvoicePaid_keeps eth w ok now vLog s hnd
    have hnd2 : ((op.apply eth w s).map Invoice.ID).Nodup := by
      rw [forall₂_keeps_ids h1]
      exact hnd
    exact forall₂_keeps_trans h1 (ih _ hnd2)

/-- From the row-by-row relation to single invoices: the final table has a row
with the key of `i`, and every row with that key keeps what `Keeps` names. -/
theorem keeps_of_mem {s s2 : List Invoice} (h : List.Forall₂ Keeps s s2)
    (hnd : (s.map Invoice.ID).Nodup) (i : Invoice) (hi : i ∈ s) :
    (∃ j ∈ s2, j.ID = i.ID) ∧ ∀ j ∈ s2, j.ID = i.ID → Keeps i j := by
  induction h with
  | nil => cases hi
  | @cons a b l1 l2 hab htl ih =>
    simp only [List.map_cons, List.nodup_cons, List.mem_map, not_exists, not_and] at hnd
    rcases List.mem_cons.mp hi with rfl | hi2
    · refine ⟨⟨b, List.mem_cons_self _ _, hab.1⟩, fun j hj hji => ?_⟩
      rcases List.mem_cons.mp hj with rfl | hj2
      · exact hab
      · exfalso
        have hids := forall₂_keeps_ids htl
        have : j.ID ∈ l2.map Invoice.ID := List.mem_map_of_mem _ hj2
        rw [hids] at this
        obtain ⟨x, hx, hxid⟩ := List.mem_map.mp this
        exact hnd.1 x hx (hxid.trans hji)
    · obtain ⟨⟨j, hj, hji⟩, hall⟩ := ih hnd.2 hi2
      refine ⟨⟨j, List.mem_cons_of_mem _ hj, hji⟩, fun k hk hki => ?_⟩
      rcases List.mem_cons.mp hk with rfl | hk2
      · exfalso
        exact hnd.1 i hi2 (hki.symm.trans hab.1)
      · exact hall k hk2 hki

/-- C3: an invoice that is PAID stays PAID with the same payerAddress and txHash
after any finite sequence of expiry sweeps, `InvoiceCreated` logs and
`InvoicePaid` logs (whatever their ids, payers, hashes, times and write
outcomes), in a table whose primary keys are distinct. -/
theorem C3_paid_is_permanent (eth : Eth) (w : Watcher) (ops : List StoreOp) (s : List Invoice)
    (i : Invoice) (hnd : (s.map Invoice.ID).Nodup) (hi : i ∈ s) (hp : i.Status = StatusPaid) :
    (∃ j ∈ runOps eth w ops s, j.ID = i.ID)
      ∧ ∀ j ∈ runOps eth w ops s, j.ID = i.ID →
          j.Status = StatusPaid ∧ j.PayerAddress = i.PayerAddress ∧ j.TxHash = i.TxHash := by
  obtain ⟨hex, hall⟩ := keeps_of_mem (runOps_keeps eth w ops s hnd) hnd i hi
  refine ⟨hex, fun j hj hji => ?_⟩
  obtain ⟨h1, h2, h3⟩ := (hall j hj hji).2.1 hp
  exact ⟨h1, h3, h2⟩

theorem C3_paid_is_permanent_witness :
    ([exPaid, exUnlinked].map Invoice.ID).Nodup ∧ exPaid ∈ [exPaid, exUnlinked]
      ∧ exPaid.Status = StatusPaid
      ∧ runOps exEth exWatcher exOps [exPaid, exUnlinked]
          = [exPaid, { exUnlinked with
                        Status := StatusExpired, OnchainInvoiceID := "42", UpdatedAt := 300 }]
      ∧ (∃ j ∈ runOps exEth exWatcher exOps [exPaid, exUnlinked], j.ID = exPaid.ID)
      ∧ ∀ j ∈ runOps exEth exWatcher exOps [exPaid, exUnlinked], j.ID = exPaid.ID →
          j.Status = StatusPaid ∧ j.PayerAddress = exPaid.PayerAddress
            ∧ j.TxHash = exPaid.TxHash :=
  ⟨by decide, by decide, by decide, by decide,
    C3_paid_is_permanent exEth exWatcher exOps [exPaid, exUnlinked] exPaid
      (by decide) (by decide) (by decide)⟩

/-- C10: a non-empty `onchainInvoiceId` of an invoice is not changed by any finite
sequence of `InvoiceCreated` logs, `InvoicePaid` logs and expiry sweeps (whatever
their hashes, ids, times and write outcomes), in a table whose primary keys are
distinct. -/
theorem C10_onchain_id_is_permanent (eth : Eth) (w : Watcher) (ops : List StoreOp)
    (s : List Invoice) (i : Invoice) (hnd : (s.map Invoice.ID).Nodup) (hi : i ∈ s)
    (ho : i.OnchainInvoiceID ≠ "") :
    (∃ j ∈ runOps eth w ops s, j.ID = i.ID)
      ∧ ∀ j ∈ runOps eth w ops s, j.ID = i.ID → j.OnchainInvoiceID = i.OnchainInvoiceID := by
  obtain ⟨hex, hall⟩ := keeps_of_mem (runOps_keeps eth w ops s hnd) hnd i hi
  exact ⟨hex, fun j hj hji => (hall j hj hji).2.2 ho⟩

theorem C10_onchain_id_is_permanent_witness :
    ([exInvoice, exUnlinked].map Invoice.ID).Nodup ∧ exInvoice ∈ [exInvoice, exUnlinked]
      ∧ exInvoice.OnchainInvoiceID ≠ ""
      ∧ (runOps exEth exWatcher exOps [exInvoice, exUnlinked]).map Invoice.OnchainInvoiceID
          = ["42", "42"]
      ∧ (∃ j ∈ runOps exEth exWatcher exOps [exInvoice, exUnlinked], j.ID = exInvoice.ID)
      ∧ ∀ j ∈ runOps exEth exWatcher exOps [exInvoice, exUnlinked], j.ID = exInvoice.ID →
          j.OnchainInvoiceID = exInvoice.OnchainInvoiceID :=
  ⟨by decide, by decide, by decide, by decide,
    C10_onchain_id_is_permanent exEth exWatcher exOps [exInvoice, exUnlinked] exInvoice
      (by decide) (by decide) (by decide)⟩

/-! ## Claims on the expiry sweep -/

/-- C11: a successful `UpdateExpired(now)` sets the status to EXPIRED on exactly
the invoices that are PENDING with `expiresAt` strictly before `now`, changing on
them only the status (and `updatedAt`, to the time `stamp` of the write); every
other invoice (PAID, already EXPIRED, or PENDING with `expiresAt ≥ now`) is left
as it was. A sweep whose write fails changes nothing. -/
theorem C11_sweep_expires_exactly_overdue_pending (stamp now : Time) (s : List Invoice) :
    (∃ s1, UpdateExpired true stamp now s = some s1 ∧ expiryTick true stamp now s = s1
      ∧ List.Forall₂ (fun a b =>
          (a.Status = StatusPending ∧ a.ExpiresAt < now →
            b = { a with
                  Status := StatusExpired
                  UpdatedAt := stamp })
          ∧ (a.Status = StatusPaid → b = a)
          ∧ (a.Status = StatusExpired → b = a)
          ∧ (a.Status = StatusPending ∧ now ≤ a.ExpiresAt → b = a)
          ∧ (¬ (a.Status = StatusPending ∧ a.ExpiresAt < now) → b = a)
          ∧ (b.Status = StatusExpired ∧ b ≠ a ↔ a.Status = StatusPending ∧ a.ExpiresAt < now))
        s s1)
    ∧ UpdateExpired false stamp now s = none ∧ expiryTick false stamp now s = s := by
  refine ⟨⟨_, rfl, rfl, ?_⟩, rfl, rfl⟩
  rw [List.forall₂_map_right_iff, List.forall₂_same]
  intro a _
  by_cases h : a.Status = StatusPending ∧ a.ExpiresAt < now
  · rw [if_pos h]
    have hne : ({ a with Status := StatusExpired, UpdatedAt := stamp } : Invoice) ≠ a := by
      intro e
      have e2 := congrArg Invoice.Status e
      simp only [h.1] at e2
      exact absurd e2 (by decide)
    refine ⟨fun _ => rfl, fun hp => ?_, fun he => ?_, fun hle => ?_, fun hn => absurd h hn,
      fun _ => h, fun _ => ⟨rfl, hne⟩⟩
    · rw [h.1] at hp
      exact absurd hp (by decide)
    · rw [h.1] at he
      exact absurd he (by decide)
    · exact absurd h.2 (not_lt.mpr hle.2)
  · rw [if_neg h]
    exact ⟨fun hh => absurd hh h, fun _ => rfl, fun _ => rfl, fun _ => rfl, fun _ => rfl,
      fun hh => absurd rfl hh.2, fun hh => absurd hh h⟩

theorem C11_sweep_expires_exactly_overdue_pending_witness :
    expiryTick true 502 501 [exInvoice, exPaid, { exUnlinked with ExpiresAt := 501 }]
        = [{ exInvoice with Status := StatusExpired, UpdatedAt := 502 }, exPaid,
            { exUnlinked with ExpiresAt := 501 }]
    ∧ ((∃ s1, UpdateExpired true 502 501 [exInvoice, exPaid, { exUnlinked with ExpiresAt := 501 }]
          = some s1
        ∧ expiryTick true 502 501 [exInvoice, exPaid, { exUnlinked with ExpiresAt := 501 }] = s1
        ∧ List.Forall₂ (fun a b =>
            (a.Status = StatusPending ∧ a.ExpiresAt < 501 →
              b = { a with
                    Status := StatusExpired
                    UpdatedAt := 502 })
            ∧ (a.Status = StatusPaid → b = a)
            ∧ (a.Status = StatusExpired → b = a)
            ∧ (a.Status = StatusPending ∧ 501 ≤ a.ExpiresAt → b = a)
            ∧ (¬ (a.Status = StatusPending ∧ a.ExpiresAt < 501) → b = a)
            ∧ (b.Status = StatusExpired ∧ b ≠ a ↔ a.Status = StatusPending ∧ a.ExpiresAt < 501))
          [exInvoice, exPaid, { exUnlinked with ExpiresAt := 501 }] s1)
      ∧ UpdateExpired false 502 501 [exInvoice, exPaid, { exUnlinked with ExpiresAt := 501 }] = none
      ∧ expiryTick false 502 501 [exInvoice, exPaid, { exUnlinked with ExpiresAt := 501 }]
          = [exInvoice, exPaid, { exUnlinked with ExpiresAt := 501 }]) :=
  ⟨by decide,
    C11_sweep_expires_exactly_overdue_pending 502 501
      [exInvoice, exPaid, { exUnlinked with ExpiresAt := 501 }]⟩

/-! ## Claims on the bootstrap of the checkpoint -/

/-- A request of a tick starts one block after the value `getLastProcessedBlock`
returned, which lies below the safe head. -/
theorem pollLogs_from (eth : Eth) (w : Watcher) (env : Env) (db : DB) (q : FilterQuery)
    (hq : (pollLogs eth w env db).2 = some q) :
    ∃ H, env.BlockNumber = some H
      ∧ ¬ (getLastProcessedBlock env db.appState).1 ≥ subU64 H 2
      ∧ q.FromBlock = int64 (addU64 (getLastProcessedBlock env db.appState).1 1) := by
  unfold pollLogs at hq
  cases hH : env.BlockNumber with
  | none => simp [hH] at hq
  | some H =>
    refine ⟨H, rfl, ?_⟩
    simp only [hH] at hq
    by_cases hlt : (getLastProcessedBlock env db.appState).1 ≥ subU64 H 2
    · simp [hlt] at hq
    · refine ⟨hlt, ?_⟩
      simp only [hlt, if_false] at hq
      split at hq <;> (cases hq; rfl)

/-- A request that starts at a block number `b` starts right after the value
`getLastProcessedBlock` returned. -/
theorem pollLogs_from_block (eth : Eth) (w : Watcher) (env : Env) (db : DB) (q : FilterQuery)
    (b : Nat) (hq : (pollLogs eth w env db).2 = some q) (hb : q.FromBlock = (b : Int)) :
    b = (getLastProcessedBlock env db.appState).1 + 1 := by
  obtain ⟨H, _, hlt, hfrom⟩ := pollLogs_from eth w env db q hq
  obtain ⟨hstart, hlo, _, _, hu⟩ := scan_bound _ H hlt
  rw [hstart] at hfrom
  have hnn : 0 ≤ int64 ((getLastProcessedBlock env db.appState).1 + 1) := by
    rw [← hfrom, hb]
    exact Int.ofNat_nonneg b
  obtain ⟨hval, _⟩ := int64_of_nonneg _ (by omega) hnn
  rw [hfrom, hval] at hb
  exact (Int.ofNat_inj.mp hb).symm

/-- In a run of ticks that all read the checkpoint, every request that starts at a
block number starts above any value the checkpoint had before the run. -/
theorem requests_above_checkpoint (eth : Eth) (w : Watcher) (envs : List Env) (db : DB)
    (c0 c : Nat) (hall : ∀ e ∈ envs, e.firstOk = true) (hc : checkpoint db = some c)
    (hle : c0 ≤ c) :
    ∀ q ∈ runRequests eth w envs db, ∀ b : Nat, q.FromBlock = (b : Int) → c0 < b := by
  induction envs generalizing db c with
  | nil =>
    intro q hq
    simp [runRequests] at hq
  | cons env envs ih =>
    intro q hq b hb
    have hfirst := hall env (List.mem_cons_self _ _)
    obtain ⟨c1, hc1, hle1⟩ := pollLogs_checkpoint_le eth w env db c hfirst hc
    simp only [runRequests, List.mem_append] at hq
    rcases hq with hq | hq
    · unfold checkpoint at hc
      cases hr : first AppState.ID (fun _ => true) db.appState with
      | none => simp [hr] at hc
      | some r =>
        simp only [hr, Option.map_some', Option.some.injEq] at hc
        cases hp : (pollLogs eth w env db).2 with
        | none => simp [hp] at hq
        | some q1 =>
          simp only [hp, Option.toList, List.mem_singleton] at hq
          subst hq
          have hbe := pollLogs_from_block eth w env db q b hp hb
          rw [getLastProcessedBlock_read env _ r hfirst hr] at hbe
          simp only at hbe
          omega
    · exact ih _ c1 (fun e he => hall e (List.mem_cons_of_mem _ he)) hc1 (le_trans hle hle1)
        q hq b hb

/-- C12 (fails on the code as stated): with no checkpoint record and head 0,
`getLastProcessedBlock` stores and returns 0 (the guard `currentBlock > 0`), which
is not `H - 1`, neither as an integer nor as a `uint64`. -/
theorem C12_bootstrap_differs_at_head_zero :
    getLastProcessedBlock (exEnv 0 [] true) [] = (0, [⟨1, 0⟩])
      ∧ (((getLastProcessedBlock (exEnv 0 [] true) []).1 : Nat) : Int) ≠ ((0 : Nat) : Int) - 1
      ∧ (getLastProcessedBlock (exEnv 0 [] true) []).1 ≠ subU64 0 1 := by
  refine ⟨?_, ?_, ?_⟩ <;> decide

/-- C12 (amended): when no checkpoint record exists, the `BlockNumber` call inside
`getLastProcessedBlock` returns head `H` and the insert succeeds (`Create` reports
no error and the `bigint` column accepts the value `H - 1`),
`getLastProcessedBlock` persists the checkpoint record `⟨1, c⟩` and returns `c`,
where `c = H - 1` for `H ≥ 1` and `c = 0` for `H = 0`. No request of the tick
that bootstraps, and no request of any later run of ticks that all read the
checkpoint record, starts at a block `≤ c`. -/
theorem C12_bootstrap_checkpoint (eth : Eth) (w : Watcher) (env : Env) (H : Nat)
    (hH : env.bootBlockNumber = some H) (hc : env.createOk = true)
    (hfit : dbAccepts (H - 1) = true) :
    getLastProcessedBlock env [] = (if 0 < H then H - 1 else 0, [⟨1, if 0 < H then H - 1 else 0⟩])
      ∧ (0 < H → ((getLastProcessedBlock env []).1 : Int) = (H : Int) - 1)
      ∧ (∀ (inv : List Invoice) (q : FilterQuery) (b : Nat),
          (pollLogs eth w env ⟨inv, []⟩).2 = some q → q.FromBlock = (b : Int) →
          (getLastProcessedBlock env []).1 < b)
      ∧ ∀ (inv : List Invoice) (envs : List Env), (∀ e ∈ envs, e.firstOk = true) →
          checkpoint ⟨inv, (getLastProcessedBlock env []).2⟩ = some (getLastProcessedBlock env []).1
          ∧ ∀ q ∈ runRequests eth w envs ⟨inv, (getLastProcessedBlock env []).2⟩, ∀ b : Nat,
              q.FromBlock = (b : Int) → (getLastProcessedBlock env []).1 < b := by
  have hsmall : H - 1 < 2 ^ 63 := by simpa [dbAccepts] using hfit
  have e : getLastProcessedBlock env []
      = (if 0 < H then H - 1 else 0, [⟨1, if 0 < H then H - 1 else 0⟩]) := by
    have hfirst : (if env.firstOk = true then first AppState.ID (fun _ => true) [] else none)
        = none := by
      split <;> rfl
    by_cases hp : 0 < H
    · have hsub : subU64 H 1 = H - 1 := by
        simp only [subU64, u64, Nat.reducePow] at *
        omega
      have hacc : dbAccepts (H - 1) = true := hfit
      simp only [getLastProcessedBlock, hfirst, hH, hc, Option.getD_some, gt_iff_lt, hp, if_true,
        hsub, hacc, Bool.and_self, List.nil_append]
      rfl
    · have h0 : H = 0 := by omega
      subst h0
      simp only [getLastProcessedBlock, hfirst, hH, hc, Option.getD_some, gt_iff_lt,
        Nat.lt_irrefl, if_false, List.nil_append]
      rfl
  refine ⟨e, fun hp => ?_, fun inv q b hq hb => ?_, fun inv envs hall => ?_⟩
  · rw [e]
    simp only [hp, if_true]
    omega
  · have hbe := pollLogs_from_block eth w env ⟨inv, []⟩ q b hq hb
    simp only at hbe
    omega
  · have hck : checkpoint ⟨inv, (getLastProcessedBlock env []).2⟩
        = some (getLastProcessedBlock env []).1 := by
      rw [e]
      rfl
    exact ⟨hck, requests_above_checkpoint eth w envs _ _ _ hall hck (le_refl _)⟩

theorem C12_bootstrap_checkpoint_witness :
    (exEnv 100 [] true).bootBlockNumber = some 100
      ∧ (exEnv 100 [] true).createOk = true
      ∧ dbAccepts (100 - 1) = true
      ∧ (∀ e ∈ [exEnv 5000 [] true, exEnv 5000 [] true], e.firstOk = true)
      ∧ (runRequests exEth exWatcher [exEnv 5000 [] true, exEnv 5000 [] true]
          ⟨[], (getLastProcessedBlock (exEnv 100 [] true) []).2⟩).map FilterQuery.FromBlock
          = [100, 1101]
      ∧ getLastProcessedBlock (exEnv 100 [] true) []
          = (if 0 < 100 then 100 - 1 else 0, [⟨1, if 0 < 100 then 100 - 1 else 0⟩])
      ∧ (0 < 100 →
          ((getLastProcessedBlock (exEnv 100 [] true) []).1 : Int) = ((100 : Nat) : Int) - 1)
      ∧ (∀ (inv : List Invoice) (q : FilterQuery) (b : Nat),
          (pollLogs exEth exWatcher (exEnv 100 [] true) ⟨inv, []⟩).2 = some q →
          q.FromBlock = (b : Int) → (getLastProcessedBlock (exEnv 100 [] true) []).1 < b)
      ∧ checkpoint ⟨[], (getLastProcessedBlock (exEnv 100 [] true) []).2⟩
          = some (getLastProcessedBlock (exEnv 100 [] true) []).1
      ∧ ∀ q ∈ runRequests exEth exWatcher [exEnv 5000 [] true, exEnv 5000 [] true]
            ⟨[], (getLastProcessedBlock (exEnv 100 [] true) []).2⟩, ∀ b : Nat,
          q.FromBlock = (b : Int) → (getLastProcessedBlock (exEnv 100 [] true) []).1 < b :=
  ⟨by decide, by decide, by decide, by decide, by decide,
    (C12_bootstrap_checkpoint exEth exWatcher (exEnv 100 [] true) 100 (by decide) (by decide)
      (by decide)).1,
    (C12_bootstrap_checkpoint exEth exWatcher (exEnv 100 [] true) 100 (by decide) (by decide)
      (by decide)).2.1,
    (C12_bootstrap_checkpoint exEth exWatcher (exEnv 100 [] true) 100 (by decide) (by decide)
      (by decide)).2.2.1,
    ((C12_bootstrap_checkpoint exEth exWatcher (exEnv 100 [] true) 100 (by decide) (by decide)
      (by decide)).2.2.2 [] [exEnv 5000 [] true, exEnv 5000 [] true] (by decide)).1,
    ((C12_bootstrap_checkpoint exEth exWatcher (exEnv 100 [] true) 100 (by decide) (by decide)
      (by decide)).2.2.2 [] [exEnv 5000 [] true, exEnv 5000 [] true] (by decide)).2⟩

/-! ## Claims on the amount conversion -/

theorem roundToPrec_of_fits (prec mant : Nat) (exp : Int) (h : bitLen mant ≤ prec) :
    roundToPrec prec mant exp = (mant, exp) := by
  unfold roundToPrec
  simp only [h, if_true]

/-- When the exact product of the mantissa with `5 ^ 18` fits the 53 bits of the
`big.Float`, nothing is rounded and `CreateInvoice` computes the truncation of the
exact product. -/
theorem amountWei_eq_exactWei_of_fits (x : Float64)
    (h : bitLen (x.mant * 3814697265625) ≤ 53) : amountWei x = exactWei x := by
  obtain ⟨m, e⟩ := x
  simp only at h
  have h10 : (10 : Nat) ^ 18 = 3814697265625 * 2 ^ 18 := by norm_num
  have e0 : amountWei ⟨m, e⟩
      = if 0 ≤ e + 18 then m * 3814697265625 * 2 ^ (e + 18).toNat
        else m * 3814697265625 / 2 ^ (-(e + 18)).toNat := by
    have hprec : (if (53 : Nat) = 0 then max 53 53 else 53) = 53 := by decide
    simp only [amountWei, NewFloat, float1e18, BigFloat.Mul, BigFloat.Int, hprec,
      roundToPrec_of_fits _ _ _ h]
  rw [e0]
  unfold exactWei
  simp only
  by_cases he : 0 ≤ e
  · lift e to Nat using he
    have h1 : (0 : Int) ≤ (e : Int) + 18 := by omega
    have h2 : ((e : Int) + 18).toNat = e + 18 := by omega
    have h4 : (0 : Int) ≤ (e : Int) := by omega
    rw [if_pos h1, if_pos h4, h2, Int.toNat_ofNat, h10, Nat.pow_add]
    ring
  · have hk : ∃ k : Nat, e = -((k : Int) + 1) := ⟨(-e - 1).toNat, by omega⟩
    obtain ⟨k, rfl⟩ := hk
    have h3 : (-(-((k : Int) + 1))).toNat = k + 1 := by omega
    rw [if_neg he, h3]
    by_cases hk18 : k + 1 ≤ 18
    · have h1 : (0 : Int) ≤ -((k : Int) + 1) + 18 := by omega
      have h2 : (-((k : Int) + 1) + 18).toNat = 18 - (k + 1) := by omega
      rw [if_pos h1, h2, h10]
      have hp : 2 ^ 18 = 2 ^ (18 - (k + 1)) * 2 ^ (k + 1) := by
        rw [← Nat.pow_add]
        congr 1
        omega
      rw [hp, ← Nat.mul_assoc, ← Nat.mul_assoc, Nat.mul_div_cancel _ (by positivity)]
    · have h1 : ¬ (0 : Int) ≤ -((k : Int) + 1) + 18 := by omega
      have h2 : (-(-((k : Int) + 1) + 18)).toNat = k + 1 - 18 := by omega
      rw [if_neg h1, h2, h10]
      have hp : 2 ^ (k + 1) = 2 ^ (k + 1 - 18) * 2 ^ 18 := by
        rw [← Nat.pow_add]
        congr 1
        omega
      rw [hp, ← Nat.mul_assoc, Nat.mul_div_mul_right _ _ (by positivity)]

set_option maxRecDepth 4000 in
/-- C13 (fails on the code): for the amount 1.1 (the `float64`
`2476979795053773 * 2^-51`) `CreateInvoice` computes and stores
`1100000000000000128`: the product with `1e18` is rounded to the 53 bits of the
`big.Float`, while the truncation of the exact product is `1100000000000000088`.
The two amounts named in the claim, 0.01 and 1.5, are stored as the claim says. -/
theorem C13_product_rounded_to_53_bits :
    amountWei exAmount11 = 1100000000000000128
      ∧ storedAmountWei exAmount11 = "1100000000000000128"
      ∧ exactWei exAmount11 = 1100000000000000088
      ∧ amountWei exAmount11 ≠ exactWei exAmount11
      ∧ storedAmountWei exAmount001 = "10000000000000000"
      ∧ amountWei exAmount001 = exactWei exAmount001
      ∧ storedAmountWei exAmount15 = "1500000000000000000"
      ∧ amountWei exAmount15 = exactWei exAmount15 := by
  refine ⟨?_, ?_, ?_, ?_, ?_, ?_, ?_, ?_⟩ <;> decide

/-! ## The paid handler interleaved with a sweep -/

/-- The two steps, run one after the other on the same table, are the handler. -/
theorem handleInvoicePaid_steps (eth : Eth) (w : Watcher) (ok : Bool) (now : Time) (vLog : Log)
    (s : List Invoice) :
    handleInvoicePaid eth w ok now vLog s
      = match paidRead w vLog s with
        | none => s
        | some invoice => paidWrite eth ok now vLog invoice s := by
  unfold handleInvoicePaid paidRead paidWrite
  split
  · rfl
  · split
    · rfl
    · simp only
      split
      · rfl
      · split <;> rfl

theorem expiryTick_eq_map (ok : Bool) (stamp now : Time) (s : List Invoice) :
    expiryTick ok stamp now s = s.map (sweepRow ok stamp now) := by
  unfold expiryTick UpdateExpired
  cases ok with
  | false =>
    simp only [Bool.false_eq_true, if_false]
    have : sweepRow false stamp now = id := by
      funext r
      simp [sweepRow]
    rw [this, List.map_id]
  | true =>
    simp only [if_true]
    apply List.map_congr_left
    intro r _
    simp [sweepRow]

theorem sweepRow_ID (ok : Bool) (stamp now : Time) (r : Invoice) :
    (sweepRow ok stamp now r).ID = r.ID := by
  unfold sweepRow
  split <;> rfl

theorem sweepRow_not_paid (ok : Bool) (stamp now : Time) (r : Invoice)
    (h : r.Status ≠ StatusPaid) :
    (sweepRow ok stamp now r).Status ≠ StatusPaid := by
  unfold sweepRow
  split
  · simp only
    decide
  · exact h

theorem FindByOnchainID_sweep (o : String) (ok : Bool) (stamp now : Time) (s : List Invoice) :
    FindByOnchainID o (s.map (sweepRow ok stamp now))
      = (FindByOnchainID o s).map (sweepRow ok stamp now) := by
  unfold FindByOnchainID
  apply first_map
  · exact sweepRow_ID ok stamp now
  · intro r
    unfold sweepRow
    split <;> rfl

theorem paidRead_eq_some (w : Watcher) (vLog : Log) (s : List Invoice) (i : Invoice)
    (hdec : w.contractABI.UnpackIntoInterface "InvoicePaid" vLog.Data = true)
    (htop : 3 ≤ vLog.Topics.length)
    (hf : FindByOnchainID (toString vLog.invoiceId) s = some i) (hp : i.Status ≠ StatusPaid) :
    paidRead w vLog s = some i := by
  unfold Log.invoiceId at hf
  have h3 : ¬ vLog.Topics.length < 3 := by omega
  simp only [paidRead, hdec, h3, hf, hp]
  rfl

theorem paidWrite_eq_map (eth : Eth) (now : Time) (vLog : Log) (i : Invoice) (s : List Invoice) :
    paidWrite eth true now vLog i s
      = s.map (markPaid i.ID vLog.TxHash.Hex (vLog.payer.Hex eth) now) := by
  have e1 : (vLog.TxHash.Hex != "") = true := by simpa using hashHex_ne_empty _
  have e2 : ((BytesToAddress (vLog.Topics.getD 2 ⟨[]⟩).bytes).Hex eth != "") = true := by
    simpa using addressHex_ne_empty eth _
  simp only [paidWrite, UpdateStatus, e1, e2]
  rfl

theorem sweepRow_markPaid (ok : Bool) (stampS nowS : Time) (id : Nat) (t p : String)
    (nowW : Time)
    (r : Invoice) :
    sweepRow ok stampS nowS (markPaid id t p nowW r)
      = markPaid id t p nowW (sweepRow ok stampS nowS r) := by
  unfold markPaid
  by_cases h : r.ID = id
  · have h2 : (sweepRow ok stampS nowS r).ID = id := by rw [sweepRow_ID]; exact h
    rw [if_pos h, if_pos h2]
    unfold sweepRow
    by_cases hc : ok = true ∧ r.Status = StatusPending ∧ r.ExpiresAt < nowS
    · rw [if_pos hc]
      have hn : ¬ (ok = true ∧ StatusPaid = StatusPending ∧ r.ExpiresAt < nowS) := by
        intro hh
        exact absurd hh.2.1 (by decide)
      simp only [hn, if_false]
    · rw [if_neg hc]
      have hn : ¬ (ok = true ∧ StatusPaid = StatusPending ∧ r.ExpiresAt < nowS) := by
        intro hh
        exact absurd hh.2.1 (by decide)
      simp only [hn, if_false]
  · have h2 : ¬ (sweepRow ok stampS nowS r).ID = id := by rw [sweepRow_ID]; exact h
    rw [if_neg h, if_neg h2]

/-- C14: for a decoded `InvoicePaid` log whose invoice (the one `FindByOnchainID`
returns) is PENDING or EXPIRED, and one atomic expiry sweep of any time and
outcome, each of the three interleavings of the sweep with the handler's read and
write (the write succeeding) ends in the same table: the one of sweep then
payment, which is also the one of payment then sweep. In it the invoice is PAID
with the payer and the transaction hash of the log. -/
theorem C14_payment_wins_in_every_interleaving (eth : Eth) (w : Watcher) (okS : Bool)
    (stampS nowS nowW : Time) (vLog : Log) (s : List Invoice) (i : Invoice)
    (hdec : w.contractABI.UnpackIntoInterface "InvoicePaid" vLog.Data = true)
    (htop : 3 ≤ vLog.Topics.length)
    (hf : FindByOnchainID (toString vLog.invoiceId) s = some i)
    (hst : i.Status = StatusPending ∨ i.Status = StatusExpired) :
    (∀ sch, runInterleaving eth w okS stampS nowS true nowW vLog sch s
        = handleInvoicePaid eth w true nowW vLog (expiryTick okS stampS nowS s))
      ∧ handleInvoicePaid eth w true nowW vLog (expiryTick okS stampS nowS s)
        = expiryTick okS stampS nowS (handleInvoicePaid eth w true nowW vLog s)
      ∧ (∃ j ∈ handleInvoicePaid eth w true nowW vLog (expiryTick okS stampS nowS s),
          j.ID = i.ID)
      ∧ ∀ j ∈ handleInvoicePaid eth w true nowW vLog (expiryTick okS stampS nowS s),
          j.ID = i.ID →
          j.Status = StatusPaid ∧ j.PayerAddress = some (vLog.payer.Hex eth)
            ∧ j.TxHash = some vLog.TxHash.Hex := by
  have hp : i.Status ≠ StatusPaid := by
    rcases hst with h | h <;> rw [h] <;> decide
  have hread := paidRead_eq_some w vLog s i hdec htop hf hp
  have hf1 : FindByOnchainID (toString vLog.invoiceId) (expiryTick okS stampS nowS s)
      = some (sweepRow okS stampS nowS i) := by
    rw [expiryTick_eq_map, FindByOnchainID_sweep, hf]
    rfl
  have hfirst : handleInvoicePaid eth w true nowW vLog (expiryTick okS stampS nowS s)
      = (expiryTick okS stampS nowS s).map
          (markPaid i.ID vLog.TxHash.Hex (vLog.payer.Hex eth) nowW) := by
    rw [handleInvoicePaid_mark eth w nowW vLog _ _ hdec htop hf1 (sweepRow_not_paid _ _ _ _ hp),
      sweepRow_ID]
  have hlast : expiryTick okS stampS nowS (handleInvoicePaid eth w true nowW vLog s)
      = (expiryTick okS stampS nowS s).map
          (markPaid i.ID vLog.TxHash.Hex (vLog.payer.Hex eth) nowW) := by
    rw [handleInvoicePaid_mark eth w nowW vLog s i hdec htop hf hp, expiryTick_eq_map,
      expiryTick_eq_map, List.map_map, List.map_map]
    apply List.map_congr_left
    intro r _
    exact sweepRow_markPaid okS stampS nowS i.ID _ _ nowW r
  refine ⟨fun sch => ?_, hfirst.trans hlast.symm, ?_, ?_⟩
  · cases sch with
    | sweepFirst => exact (handleInvoicePaid_steps eth w true nowW vLog _).symm
    | sweepBetween =>
      simp only [runInterleaving, hread]
      rw [paidWrite_eq_map, hfirst]
    | sweepLast =>
      simp only [runInterleaving, hread]
      rw [paidWrite_eq_map, ← handleInvoicePaid_mark eth w nowW vLog s i hdec htop hf hp, hlast,
        hfirst]
  · rw [hfirst, expiryTick_eq_map, List.map_map]
    refine ⟨_, List.mem_map_of_mem _ (first_mem _ _ _ _ hf).1, ?_⟩
    simp only [Function.comp, markPaid_ID, sweepRow_ID]
  · intro j hj hji
    rw [hfirst] at hj
    obtain ⟨a, _, rfl⟩ := List.mem_map.mp hj
    rw [markPaid_ID] at hji
    simp only [markPaid, hji, if_true, and_self]

theorem C14_payment_wins_in_every_interleaving_witness :
    exWatcher.contractABI.UnpackIntoInterface "InvoicePaid" exPaidLog.Data = true
      ∧ 3 ≤ exPaidLog.Topics.length
      ∧ FindByOnchainID (toString exPaidLog.invoiceId) [exInvoice, exUnlinked] = some exInvoice
      ∧ (exInvoice.Status = StatusPending ∨ exInvoice.Status = StatusExpired)
      ∧ (expiryTick true 1001 1000 [exInvoice, exUnlinked]).map Invoice.Status
          = [StatusExpired, StatusExpired]
      ∧ (runInterleaving exEth exWatcher true 1001 1000 true 100 exPaidLog .sweepBetween
          [exInvoice, exUnlinked]).map Invoice.Status = [StatusPaid, StatusExpired]
      ∧ ((∀ sch, runInterleaving exEth exWatcher true 1001 1000 true 100 exPaidLog sch
            [exInvoice, exUnlinked]
          = handleInvoicePaid exEth exWatcher true 100 exPaidLog
              (expiryTick true 1001 1000 [exInvoice, exUnlinked]))
        ∧ handleInvoicePaid exEth exWatcher true 100 exPaidLog
            (expiryTick true 1001 1000 [exInvoice, exUnlinked])
          = expiryTick true 1001 1000
              (handleInvoicePaid exEth exWatcher true 100 exPaidLog [exInvoice, exUnlinked])
        ∧ (∃ j ∈ handleInvoicePaid exEth exWatcher true 100 exPaidLog
              (expiryTick true 1001 1000 [exInvoice, exUnlinked]), j.ID = exInvoice.ID)
        ∧ ∀ j ∈ handleInvoicePaid exEth exWatcher true 100 exPaidLog
              (expiryTick true 1001 1000 [exInvoice, exUnlinked]), j.ID = exInvoice.ID →
            j.Status = StatusPaid ∧ j.PayerAddress = some (exPaidLog.payer.Hex exEth)
              ∧ j.TxHash = some exPaidLog.TxHash.Hex) :=
  ⟨by decide, by decide, by decide, by decide, by decide, by decide,
    C14_payment_wins_in_every_interleaving exEth exWatcher true 1001 1000 100 exPaidLog
      [exInvoice, exUnlinked] exInvoice (by decide) (by decide) (by decide) (by decide)⟩

end InvoiceWatcher
